import Mathlib

/-
Verification of the SPLITT receipt OCR parser (src/combined.js, class
ReceiptParser).  The JavaScript source is shallowly embedded here:

* JS strings are modelled as `Str := List Char`.
* JS numbers are modelled as exact rationals (`ℚ`).  The JS engine uses
  IEEE doubles; every concrete value appearing in the claims (prices with
  two decimals, the confidence weights, similarity ratios) is an exact
  decimal that the double computations reproduce, so the rational model
  is faithful on the inputs the claims are about.
* The regular expressions of `ReceiptParser.patterns` are embedded by a
  small backtracking matcher (`mseq`) whose candidate enumeration mirrors
  ECMAScript semantics: leftmost match position, ordered alternation,
  greedy quantifiers try longest first, lazy quantifiers shortest first,
  and a failed continuation backtracks into earlier quantifiers.
-/

set_option maxRecDepth 20000
set_option allowUnsafeReducibility true
attribute [local semireducible] Rat.add Rat.mul Rat.sub Rat.inv Rat.ofScientific

/-- JS strings are lists of characters. -/
abbrev Str := List Char

/-- Character class `\s` of ECMAScript regexes (ASCII part; the source
receipts are ASCII). -/
def jsWs (c : Char) : Bool :=
  c == ' ' || c == '\t' || c == '\n' || c == '\r' ||
  c == Char.ofNat 11 || c == Char.ofNat 12

/-- Character class `\w` (word character) of ECMAScript regexes. -/
def isWordChar (c : Char) : Bool :=
  c.isAlphanum || c == '_'

/-- ASCII lower-casing, modelling `String.prototype.toLowerCase` on the
ASCII receipts the parser handles. -/
def lowerChar (c : Char) : Char := c.toLower

/-- ASCII upper-casing, modelling `String.prototype.toUpperCase`. -/
def upperChar (c : Char) : Char := c.toUpper

/-- Case-insensitive character comparison (for `/i` regex flags). -/
def ciEq (a b : Char) : Bool := lowerChar a == lowerChar b

/-- Model of `String.prototype.trim`: drop whitespace from both ends. -/
def jsTrim (s : Str) : Str :=
  ((s.dropWhile jsWs).reverse.dropWhile jsWs).reverse

/-- Numeric value of a digit string, e.g. `digitsVal ['2','4'] = 24`.
This models `parseInt(str, 10)` on the all-digit capture groups the
parser feeds it. -/
def digitsVal (s : Str) : Nat :=
  s.foldl (fun n c => n * 10 + (c.toNat - '0'.toNat)) 0

/-- Model of the ECMAScript `parseFloat` applied to a string, returning
`none` for `NaN`.  It parses the longest prefix of the form
`[+-]? digits [. digits]? [eE [+-]? digits]?` (after leading whitespace)
and returns its exact rational value.  `parseFloat` additionally accepts
`Infinity` literals and overflows huge exponents to `Infinity`; those
non-finite results lie outside the rational model and are mapped to
`none`.  No claim of the specification depends on them. -/
def parseFloatQ (s : Str) : Option ℚ :=
  let s1 := s.dropWhile jsWs
  let sgn : ℚ := if s1.head? = some '-' then -1 else 1
  let s2 := if s1.head? = some '-' ∨ s1.head? = some '+' then s1.tail else s1
  let intD := s2.takeWhile Char.isDigit
  let s3 := s2.dropWhile Char.isDigit
  let fracD := if s3.head? = some '.' then s3.tail.takeWhile Char.isDigit else ([] : Str)
  let s4 := if s3.head? = some '.' then s3.tail.dropWhile Char.isDigit else s3
  if intD = [] ∧ fracD = [] then none
  else
    let mant : ℚ := (digitsVal intD : ℚ) + (digitsVal fracD : ℚ) / (10 ^ fracD.length)
    let expv : ℤ :=
      if s4.head? = some 'e' ∨ s4.head? = some 'E' then
        let r := s4.tail
        let esgn : ℤ := if r.head? = some '-' then -1 else 1
        let r2 := if r.head? = some '-' ∨ r.head? = some '+' then r.tail else r
        let eD := r2.takeWhile Char.isDigit
        if eD = [] then 0 else esgn * (digitsVal eD : ℤ)
      else 0
    some (sgn * mant * (10 : ℚ) ^ expv)

/-- Model of `String.prototype.split` on a single-character separator
class: split `s` at every character satisfying `p`, keeping empty
pieces (so the result is always non-empty, like the JS method). -/
def splitSep (p : Char → Bool) : Str → List Str
  | [] => [[]]
  | c :: rest =>
    let r := splitSep p rest
    if p c then [] :: r
    else
      match r with
      | [] => [[c]]
      | h :: t => (c :: h) :: t

/-- Separator class `[.,]` used by `parsePrice`. -/
def sepC (c : Char) : Bool := c == '.' || c == ','

/-- Currency symbols `[$€£]` recognised by the parser. -/
def curC (c : Char) : Bool := c == '$' || c == '€' || c == '£'

/-- Model of `ReceiptParser.parsePrice` (src/combined.js): strip currency
symbols and whitespace, split on `.`/`,`, resolve the separators
(more than two parts: last separator is the decimal point; exactly two
parts: a 2-digit tail is cents, a 1-digit tail is padded with one zero,
a longer tail is a thousands grouping), then `parseFloat`, with `0` on
any failure. -/
def parsePrice (s : Str) : ℚ :=
  if s = [] then 0
  else
    let clean := s.filter (fun c => !(curC c || jsWs c))
    let parts := splitSep sepC clean
    let clean2 :=
      if 2 < parts.length then
        match parts.reverse with
        | [] => clean
        | lastPart :: initRev => initRev.reverse.flatten ++ '.' :: lastPart
      else
        match parts with
        | [p1, p2] =>
          if p2.length = 2 then p1 ++ '.' :: p2
          else if p2.length = 1 then p1 ++ '.' :: p2 ++ ['0']
          else if 2 < p2.length then p1 ++ p2
          else p1 ++ '.' :: p2
        | _ => clean
    match parseFloatQ clean2 with
    | none => 0
    | some v => v

/-- Shape of a numeric string with arbitrarily many separator-delimited
digit groups: `joinSeps g0 [(s1, g1), (s2, g2), ...]` is
`g0 ++ s1 :: g1 ++ s2 :: g2 ++ ...`.  Used to state the multi-separator
rule of `parsePrice` for any number of groups. -/
def joinSeps (g0 : Str) : List (Char × Str) → Str
  | [] => g0
  | (s, g) :: rest => g0 ++ s :: joinSeps g rest

/-
The regex matcher.  A pattern is a list of `PE` elements; the simple
elements `SE` contain no captures and appear inside alternations.
Matching enumerates candidate end positions in exactly the ECMAScript
backtracking preference order and takes the first position at which the
rest of the pattern succeeds.
-/

/-- Simple (capture-free) regex elements: character-class repetitions,
literals, ordered literal alternatives, and a starred fixed-length
character sequence (used for the thousands group `(?:[,.]\d{3})*`). -/
inductive SE where
  | cls (p : Char → Bool) (lo : Nat) (hi : Option Nat) (lazyQ : Bool)
  | lit (cs : Str) (ci : Bool)
  | litAlt (alts : List Str) (ci : Bool)
  | repGrp (body : List (Char → Bool)) (lazyQ : Bool)

/-- Pattern elements: a simple element, an ordered alternation of simple
sequences, capture-group delimiters, the `$` anchor, and the `\b` word
boundary. -/
inductive PE where
  | se (e : SE)
  | alt (bs : List (List SE))
  | cstart (k : Nat)
  | cend (k : Nat)
  | endA
  | wordB

/-- Length of the maximal run of characters satisfying `p` starting at
position `i` of `s`. -/
def runLen (p : Char → Bool) (s : Str) (i : Nat) : Nat :=
  ((s.drop i).takeWhile p).length

/-- Whether the literal `cs` occurs at position `i` of `s` (optionally
case-insensitively). -/
def litAt (cs : Str) (ci : Bool) (s : Str) (i : Nat) : Bool :=
  let seg := (s.drop i).take cs.length
  if ci then seg.length == cs.length && (seg.zipWith ciEq cs).all id
  else seg == cs

/-- Whether the fixed character-class sequence `body` matches at `i`. -/
def bodyAt (body : List (Char → Bool)) (s : Str) (i : Nat) : Bool :=
  i + body.length ≤ s.length &&
  (((s.drop i).take body.length).zipWith (fun c p => p c) body).all id

/-- Candidate end positions of a starred fixed-length group, nearest
first; `fuel` bounds the iteration count. -/
def repEnds (body : List (Char → Bool)) (s : Str) : Nat → Nat → List Nat
  | _, 0 => []
  | i, fuel + 1 =>
    i :: (if bodyAt body s i ∧ 0 < body.length
          then repEnds body s (i + body.length) fuel
          else [])

/-- Candidate end positions for one simple element at position `i`, in
ECMAScript backtracking preference order (greedy: longest first; lazy:
shortest first; alternatives: in written order). -/
def seCands (e : SE) (s : Str) (i : Nat) : List Nat :=
  match e with
  | .cls p lo hi lazyQ =>
    let m := min (runLen p s i) (hi.getD (runLen p s i))
    if m < lo then []
    else if lazyQ then (List.range (m - lo + 1)).map (fun k => i + lo + k)
    else (List.range (m - lo + 1)).map (fun k => i + m - k)
  | .lit cs ci => if litAt cs ci s i then [i + cs.length] else []
  | .litAlt alts ci =>
    alts.filterMap (fun cs => if litAt cs ci s i then some (i + cs.length) else none)
  | .repGrp body lazyQ =>
    let l := repEnds body s i (s.length + 1)
    if lazyQ then l else l.reverse

/-- All end positions reachable by matching a sequence of simple
elements starting at `i`, in backtracking preference order. -/
def seqEnds (es : List SE) (s : Str) (i : Nat) : List Nat :=
  match es with
  | [] => [i]
  | e :: rest => (seCands e s i).flatMap (fun j => seqEnds rest s j)

/-- Capture state: pending group starts and completed group spans (most
recent first, so a later capture of the same group shadows an earlier
one, as in ECMAScript). -/
structure MSt where
  starts : List (Nat × Nat)
  caps : List (Nat × Nat × Nat)
deriving Repr

/-- Word-boundary test (`\b`) at position `i`. -/
def wordBAt (s : Str) (i : Nat) : Bool :=
  let a := match i with
    | 0 => false
    | k + 1 => match s.get? k with | some c => isWordChar c | none => false
  let b := match s.get? i with | some c => isWordChar c | none => false
  a != b

/-- The backtracking matcher: match the pattern `pes` against `s`
starting at position `i` with capture state `st`; return the end
position and final captures of the first (preferred) full match. -/
def mseq (s : Str) : List PE → Nat → MSt → Option (Nat × MSt)
  | [], i, st => some (i, st)
  | .se e :: rest, i, st => (seCands e s i).findSome? (fun j => mseq s rest j st)
  | .alt bs :: rest, i, st =>
    (bs.flatMap (fun b => seqEnds b s i)).findSome? (fun j => mseq s rest j st)
  | .cstart k :: rest, i, st => mseq s rest i ⟨(k, i) :: st.starts, st.caps⟩
  | .cend k :: rest, i, st =>
    let a := ((st.starts.find? (fun p => p.1 == k)).map Prod.snd).getD i
    mseq s rest i ⟨st.starts, (k, a, i) :: st.caps⟩
  | .endA :: rest, i, st => if i = s.length then mseq s rest i st else none
  | .wordB :: rest, i, st => if wordBAt s i then mseq s rest i st else none

/-- Match a `^`-anchored pattern (position 0 only). -/
def matchAnchored (pat : List PE) (s : Str) : Option (Nat × MSt) :=
  mseq s pat 0 ⟨[], []⟩

/-- Unanchored regex search: leftmost match position wins, as in
`String.prototype.match` without the global flag.  Returns the span of
the whole match and the captures. -/
def searchPat (pat : List PE) (s : Str) : Option (Nat × Nat × MSt) :=
  (List.range (s.length + 1)).findSome?
    (fun i => (mseq s pat i ⟨[], []⟩).map (fun r => (i, r.1, r.2)))

/-- Substring `s[a..b)`. -/
def subSpan (s : Str) (a b : Nat) : Str := (s.drop a).take (b - a)

/-- The text captured by group `k`, if it participated in the match. -/
def capOf (s : Str) (st : MSt) (k : Nat) : Option Str :=
  (st.caps.find? (fun t => t.1 == k)).map (fun t => subSpan s t.2.1 t.2.2)

/-
Character classes and the concrete patterns of `ReceiptParser.patterns`.
-/

/-- Class `.` (any character except a line terminator). -/
def anyC (c : Char) : Bool := !(c == '\n' || c == '\r')

/-- Filler class `[\.\s\-_]` of the dotted-item pattern. -/
def fillerC (c : Char) : Bool := c == '.' || jsWs c || c == '-' || c == '_'

/-- Class `[\d,\.]` (digit or separator) used in trailing amounts. -/
def digitSepC (c : Char) : Bool := c.isDigit || c == ',' || c == '.'

/-- Class `[:\s]`. -/
def colonWsC (c : Char) : Bool := c == ':' || jsWs c

/-- Class `[%\s)]` of the tax percent annotation. -/
def pctC (c : Char) : Bool := c == '%' || jsWs c || c == ')'

/-- Class `[-\s]` of `sub[-\s]?total`. -/
def dashWsC (c : Char) : Bool := c == '-' || jsWs c

/-- Quantity marker class `[@x×\*]` under the `/i` flag. -/
def qtyMark1C (c : Char) : Bool := c == '@' || lowerChar c == 'x' || c == '×' || c == '*'

/-- Quantity marker class `[@x×\*:]` under the `/i` flag. -/
def qtyMark2C (c : Char) : Bool := qtyMark1C c || c == ':'

/-- Class `[:\-]`. -/
def colonDashC (c : Char) : Bool := c == ':' || c == '-'

/-- Date separator class `[\/\-\.]`. -/
def dateSepC (c : Char) : Bool := c == '/' || c == '-' || c == '.'

/-- Merchant name body class `[A-Za-z0-9\s&'\-]`. -/
def merchC (c : Char) : Bool :=
  c.isAlphanum || jsWs c || c == '&' || c == Char.ofNat 39 || c == '-'

/-- Upper-case ASCII letter (`[A-Z]`, case-sensitive). -/
def upperAZ (c : Char) : Bool := 'A' ≤ c && c ≤ 'Z'

/-- Street-type tokens shared by the address heuristics. -/
def streetLits : List Str :=
  (["main", "street", "st", "ave", "avenue", "blvd", "boulevard", "road",
    "rd", "drive", "dr", "lane", "ln", "way", "court", "ct"]).map String.data

/-- Pattern `dottedItem`: `/^(.+?)[\.\s\-_]{3,}\s*[$€£]?(\d[\d,\.]+)/i`. -/
def dottedItemPat : List PE :=
  [.cstart 1, .se (.cls anyC 1 none true), .cend 1,
   .se (.cls fillerC 3 none false),
   .se (.cls jsWs 0 none false),
   .se (.cls curC 0 (some 1) false),
   .cstart 2, .se (.cls Char.isDigit 1 (some 1) false),
   .se (.cls digitSepC 1 none false), .cend 2]

/-- Trailing captured amount `[$€£]?(\d[\d,\.]+)` shared by the summary
patterns, preceded by `[:\s]*`. -/
def sumTailPat : List PE :=
  [.se (.cls colonWsC 0 none false),
   .se (.cls curC 0 (some 1) false),
   .cstart 1, .se (.cls Char.isDigit 1 (some 1) false),
   .se (.cls digitSepC 1 none false), .cend 1]

/-- Pattern `tax`:
`/^(?:tax|vat|gst|hst|sales\s*tax)(?:\s*\(?\d*[%\s)]*)?[:\s]*[$€£]?(\d[\d,\.]+)/i`. -/
def taxPat : List PE :=
  [.alt [[SE.lit "tax".data true], [SE.lit "vat".data true],
         [SE.lit "gst".data true], [SE.lit "hst".data true],
         [SE.lit "sales".data true, SE.cls jsWs 0 none false, SE.lit "tax".data true]],
   .alt [[SE.cls jsWs 0 none false, SE.cls (fun c => c == '(') 0 (some 1) false,
          SE.cls Char.isDigit 0 none false, SE.cls pctC 0 none false], []]]
  ++ sumTailPat

/-- Pattern `tip`: `/^(?:tip|gratuity|service\s*charge)[:\s]*[$€£]?(\d[\d,\.]+)/i`. -/
def tipPat : List PE :=
  [.alt [[SE.lit "tip".data true], [SE.lit "gratuity".data true],
         [SE.lit "service".data true, SE.cls jsWs 0 none false, SE.lit "charge".data true]]]
  ++ sumTailPat

/-- Pattern `total`:
`/^(?:total|amount\s*due|balance\s*due|grand\s*total)[:\s]*[$€£]?(\d[\d,\.]+)/i`. -/
def totalPat : List PE :=
  [.alt [[SE.lit "total".data true],
         [SE.lit "amount".data true, SE.cls jsWs 0 none false, SE.lit "due".data true],
         [SE.lit "balance".data true, SE.cls jsWs 0 none false, SE.lit "due".data true],
         [SE.lit "grand".data true, SE.cls jsWs 0 none false, SE.lit "total".data true]]]
  ++ sumTailPat

/-- Pattern `subtotal`:
`/^(?:sub[-\s]?total|subttl|before\s*tax|net|pre[-\s]?tax)[:\s]*[$€£]?(\d[\d,\.]+)/i`. -/
def subtotalPat : List PE :=
  [.alt [[SE.lit "sub".data true, SE.cls dashWsC 0 (some 1) false, SE.lit "total".data true],
         [SE.lit "subttl".data true],
         [SE.lit "before".data true, SE.cls jsWs 0 none false, SE.lit "tax".data true],
         [SE.lit "net".data true],
         [SE.lit "pre".data true, SE.cls dashWsC 0 (some 1) false, SE.lit "tax".data true]]]
  ++ sumTailPat

/-- Common tail `(.+?)(?:\s+[$€£]?(\d[\d,\.]+)\s*$)` of the `itemLine`
pattern. -/
def itemTailPat : List PE :=
  [.cstart 2, .se (.cls anyC 1 none true), .cend 2,
   .se (.cls jsWs 1 none false),
   .se (.cls curC 0 (some 1) false),
   .cstart 3, .se (.cls Char.isDigit 1 (some 1) false),
   .se (.cls digitSepC 1 none false), .cend 3,
   .se (.cls jsWs 0 none false), .endA]

/-- The `itemLine` pattern
`/^(?:(\d+)\s*[@x×\*]\s*)?(.+?)(?:\s+[$€£]?(\d[\d,\.]+)\s*$)/i` with its
optional quantity group present.  ECMAScript tries the optional group
first and falls back to `itemLineB` only when no continuation succeeds,
so the pattern is split into the two variants tried in this order. -/
def itemLinePatA : List PE :=
  [.cstart 1, .se (.cls Char.isDigit 1 none false), .cend 1,
   .se (.cls jsWs 0 none false),
   .se (.cls qtyMark1C 1 (some 1) false),
   .se (.cls jsWs 0 none false)]
  ++ itemTailPat

/-- The `itemLine` pattern with the optional quantity group skipped. -/
def itemLinePatB : List PE := itemTailPat

/-- Pattern `price`:
`/[$€£]?\s*(\d{1,3}(?:[,\.]\d{3})*|\d+)(?:[\.,](\d{2}))?/` (unanchored).
Group 2 of the source pattern is captured there but never read by any
caller, so its capture markers are omitted. -/
def pricePat : List PE :=
  [.se (.cls curC 0 (some 1) false),
   .se (.cls jsWs 0 none false),
   .cstart 1,
   .alt [[SE.cls Char.isDigit 1 (some 3) false,
          SE.repGrp [sepC, Char.isDigit, Char.isDigit, Char.isDigit] false],
         [SE.cls Char.isDigit 1 none false]],
   .cend 1,
   .alt [[SE.cls sepC 1 (some 1) false, SE.cls Char.isDigit 2 (some 2) false], []]]

/-- First branch `^(\d+)\s*[@x×\*]\s*` of the `quantity` pattern. -/
def qtyPat1 : List PE :=
  [.cstart 1, .se (.cls Char.isDigit 1 none false), .cend 1,
   .se (.cls jsWs 0 none false),
   .se (.cls qtyMark1C 1 (some 1) false),
   .se (.cls jsWs 0 none false)]

/-- Second branch `^@?\s*(\d+)\s*[:\-]?\s*` of the `quantity` pattern. -/
def qtyPat2 : List PE :=
  [.se (.cls (fun c => c == '@') 0 (some 1) false),
   .se (.cls jsWs 0 none false),
   .cstart 2, .se (.cls Char.isDigit 1 none false), .cend 2,
   .se (.cls jsWs 0 none false),
   .se (.cls colonDashC 0 (some 1) false),
   .se (.cls jsWs 0 none false)]

/-- Third branch `^qty[:\s]*(\d+)` of the `quantity` pattern. -/
def qtyPat3 : List PE :=
  [.se (.lit "qty".data true),
   .se (.cls colonWsC 0 none false),
   .cstart 3, .se (.cls Char.isDigit 1 none false), .cend 3]

/-- Month-name literals of the `date` pattern. -/
def monthLits : List Str :=
  (["Jan", "Feb", "Mar", "Apr", "May", "Jun", "Jul", "Aug", "Sep", "Oct",
    "Nov", "Dec"]).map String.data

/-- Pattern `date` (unanchored, single capture around the whole
alternation): numeric `D/M/Y`, numeric `Y/M/D`, or `Month D, Y`. -/
def datePat : List PE :=
  [.cstart 1,
   .alt [[SE.cls Char.isDigit 1 (some 2) false, SE.cls dateSepC 1 (some 1) false,
          SE.cls Char.isDigit 1 (some 2) false, SE.cls dateSepC 1 (some 1) false,
          SE.cls Char.isDigit 2 (some 4) false],
         [SE.cls Char.isDigit 4 (some 4) false, SE.cls dateSepC 1 (some 1) false,
          SE.cls Char.isDigit 1 (some 2) false, SE.cls dateSepC 1 (some 1) false,
          SE.cls Char.isDigit 1 (some 2) false],
         [SE.litAlt monthLits true, SE.cls Char.isAlpha 0 none false,
          SE.cls (fun c => c == '.') 0 (some 1) false, SE.cls jsWs 0 none false,
          SE.cls Char.isDigit 1 (some 2) false,
          SE.cls (fun c => c == ',') 0 (some 1) false, SE.cls jsWs 0 none false,
          SE.cls Char.isDigit 4 (some 4) false]],
   .cend 1]

/-- Pattern `merchant`:
`/^[A-Z][A-Za-z0-9\s&'\-]+(?:LLC|Inc|Ltd|Corp|Restaurant|Cafe|Store|Shop|Market)?$/`
(case-sensitive). -/
def merchantPat : List PE :=
  [.se (.cls upperAZ 1 (some 1) false),
   .se (.cls merchC 1 none false),
   .alt [[SE.lit "LLC".data false], [SE.lit "Inc".data false], [SE.lit "Ltd".data false],
         [SE.lit "Corp".data false], [SE.lit "Restaurant".data false],
         [SE.lit "Cafe".data false], [SE.lit "Store".data false],
         [SE.lit "Shop".data false], [SE.lit "Market".data false], []],
   .endA]

/-- Pattern `skip` (boilerplate filter, anchored, `/i`). -/
def skipPat : List PE :=
  [.alt ([[SE.lit "receipt".data true], [SE.lit "invoice".data true],
          [SE.lit "order".data true], [SE.lit "ticket".data true],
          [SE.lit "cashier".data true], [SE.lit "server".data true],
          [SE.lit "table".data true], [SE.lit "guest".data true],
          [SE.lit "thank".data true], [SE.lit "call".data true],
          [SE.lit "visit".data true], [SE.lit "www.".data true],
          [SE.lit "http".data true], [SE.lit "tel".data true],
          [SE.lit "phone".data true], [SE.lit "fax".data true],
          [SE.lit "email".data true],
          [SE.lit "date".data true, SE.cls jsWs 0 none false, SE.lit ":".data true]])]

/-- Address heuristic `/^\d+\s+(main|street|...)/i` of `isValidItemName`. -/
def address1Pat : List PE :=
  [.se (.cls Char.isDigit 1 none false),
   .se (.cls jsWs 1 none false),
   .se (.litAlt streetLits true)]

/-- Address heuristic `/^(main|street|...)\s+\d+$/i` of `isValidItemName`. -/
def address2Pat : List PE :=
  [.se (.litAlt streetLits true),
   .se (.cls jsWs 1 none false),
   .se (.cls Char.isDigit 1 none false),
   .endA]

/-- Ticket-number heuristic `/^(order|ticket|table|check|receipt)\s*#?\s*\d+/i`. -/
def orderNumPat : List PE :=
  [.se (.litAlt ((["order", "ticket", "table", "check", "receipt"]).map String.data) true),
   .se (.cls jsWs 0 none false),
   .se (.cls (fun c => c == '#') 0 (some 1) false),
   .se (.cls jsWs 0 none false),
   .se (.cls Char.isDigit 1 none false)]

/-- Street-name guard `/^(main|street|...)\b/i` of the fallback rule in
`categorizeLine`. -/
def streetLeadPat : List PE :=
  [.se (.litAlt streetLits true), .wordB]

/-- Pattern `/^date\s*:\s*/i` stripped from a line before date search. -/
def dateLabelPat : List PE :=
  [.se (.lit "date".data true), .se (.cls jsWs 0 none false),
   .se (.lit ":".data true), .se (.cls jsWs 0 none false)]

/-- Pattern `/^@\s*/` of `removeQuantityFromName`. -/
def rqAtPat : List PE :=
  [.se (.lit "@".data false), .se (.cls jsWs 0 none false)]

/-- Pattern `/^\d+\s*[@x×\*:]\s*/i` of `removeQuantityFromName`. -/
def rqNumMarkPat : List PE :=
  [.se (.cls Char.isDigit 1 none false), .se (.cls jsWs 0 none false),
   .se (.cls qtyMark2C 1 (some 1) false), .se (.cls jsWs 0 none false)]

/-- Pattern `/^qty[:\s]*\d+\s*/i` of `removeQuantityFromName`. -/
def rqQtyPat : List PE :=
  [.se (.lit "qty".data true), .se (.cls colonWsC 0 none false),
   .se (.cls Char.isDigit 1 none false), .se (.cls jsWs 0 none false)]

/-- Pattern `/^\d+\s+/` of `removeQuantityFromName`. -/
def rqNumSpacePat : List PE :=
  [.se (.cls Char.isDigit 1 none false), .se (.cls jsWs 1 none false)]

/-- Model of `str.replace(/^pat/, "")`: drop the matched leading span. -/
def replaceLead (pat : List PE) (s : Str) : Str :=
  match matchAnchored pat s with
  | some r => s.drop r.1
  | none => s

/-
Capture accessors for the individual patterns, in the shape the callers
in `categorizeLine` and friends consume them.
-/

/-- Group 1 of an anchored single-capture summary pattern. -/
def sumCap (pat : List PE) (line : Str) : Option Str :=
  (matchAnchored pat line).bind (fun r => capOf line r.2 1)

/-- Groups 1 and 2 of the dotted-item pattern. -/
def dottedCap (line : Str) : Option (Str × Str) :=
  (matchAnchored dottedItemPat line).bind
    (fun r => (capOf line r.2 1).bind
      (fun n => (capOf line r.2 2).map (fun p => (n, p))))

/-- Groups 1-3 of `itemLine` with the quantity group present. -/
def itemACap (line : Str) : Option (Str × Str × Str) :=
  (matchAnchored itemLinePatA line).bind
    (fun r => (capOf line r.2 1).bind
      (fun q => (capOf line r.2 2).bind
        (fun n => (capOf line r.2 3).map (fun p => (q, n, p)))))

/-- Groups 2 and 3 of `itemLine` with the quantity group absent. -/
def itemBCap (line : Str) : Option (Str × Str) :=
  (matchAnchored itemLinePatB line).bind
    (fun r => (capOf line r.2 2).bind
      (fun n => (capOf line r.2 3).map (fun p => (n, p))))

/-- Span `[start, stop)` of the whole first `price` match in the line
(`priceMatch[0]` and the `replace` both only need this span). -/
def priceSpan (line : Str) : Option (Nat × Nat) :=
  (searchPat pricePat line).map (fun r => (r.1, r.2.1))

/-- Group 1 of the first `date` match in the line. -/
def dateCap (line : Str) : Option Str :=
  (searchPat datePat line).bind (fun r => capOf line r.2.2 1)

/-- Boolean regex tests used by the source. -/
def skipTest (line : Str) : Bool := (matchAnchored skipPat line).isSome

/-- Merchant shape test. -/
def merchantTest (line : Str) : Bool := (matchAnchored merchantPat line).isSome

/-- Date presence test. -/
def dateTest (line : Str) : Bool := (searchPat datePat line).isSome

/-- Price presence test. -/
def priceTest (line : Str) : Bool := (searchPat pricePat line).isSome

/-- Leading street-token test of the fallback rule. -/
def streetLeadTest (s : Str) : Bool := (matchAnchored streetLeadPat s).isSome

/-- Address and ticket-number tests of `isValidItemName`. -/
def address1Test (s : Str) : Bool := (matchAnchored address1Pat s).isSome

/-- Trailing-number address test of `isValidItemName`. -/
def address2Test (s : Str) : Bool := (matchAnchored address2Pat s).isSome

/-- Order/ticket/table/check/receipt number test of `isValidItemName`. -/
def orderNumTest (s : Str) : Bool := (matchAnchored orderNumPat s).isSome

/-
The parser helper functions (src/combined.js lines 1290-1355).
-/

/-- The financial-keyword denylist of `isValidItemName` (the regex
`/^(?:total|subtotal|...)$/i` accepts exactly the strings equal to one of
these words up to case, so the test is embedded as membership of the
lower-cased trimmed name). -/
def invalidWords : List Str :=
  (["total", "subtotal", "tax", "tip", "change", "cash", "credit", "debit",
    "card", "payment", "balance", "amount", "due", "check", "bill", "date"]).map String.data

/-- Model of `ReceiptParser.isValidItemName`. -/
def isValidItemName (name : Str) : Bool :=
  if name.length < 2 then false
  else if name.all (fun c => c.isDigit || !isWordChar c) then false
  else if invalidWords.any (fun w => (jsTrim name).map lowerChar == w) then false
  else if address1Test name then false
  else if address2Test name then false
  else if orderNumTest name then false
  else true

/-- Model of `ReceiptParser.extractQuantity`: first quantity-pattern
branch that matches supplies the digits (`match[1] || match[2] ||
match[3]`), defaulting to 1. -/
def extractQuantity (text : Str) : Nat :=
  if text = [] then 1
  else
    match (matchAnchored qtyPat1 text).bind (fun r => capOf text r.2 1) with
    | some d => digitsVal d
    | none =>
      match (matchAnchored qtyPat2 text).bind (fun r => capOf text r.2 2) with
      | some d => digitsVal d
      | none =>
        match (matchAnchored qtyPat3 text).bind (fun r => capOf text r.2 3) with
        | some d => digitsVal d
        | none => 1

/-- Model of `ReceiptParser.removeQuantityFromName`. -/
def removeQuantityFromName (name : Str) (quantity : Nat) : Str :=
  let n1 := replaceLead rqAtPat name
  let n2 :=
    if 1 < quantity then
      replaceLead rqNumSpacePat (replaceLead rqQtyPat (replaceLead rqNumMarkPat n1))
    else n1
  jsTrim n2

/-- Collapse every whitespace run to a single space
(`replace(/\s+/g, " ")`); the flag records whether the previous
character was whitespace (inside a run already replaced). -/
def collapseWsGo : Bool → Str → Str
  | _, [] => []
  | inWs, c :: rest =>
    if jsWs c then
      if inWs then collapseWsGo true rest else ' ' :: collapseWsGo true rest
    else c :: collapseWsGo false rest

/-- Model of `replace(/\s+/g, " ")`. -/
def collapseWs (s : Str) : Str := collapseWsGo false s

/-- Drop characters of class `[\s\-]` from both ends
(`replace(/^[\s\-]+|[\s\-]+$/g, "")`: the anchored alternation matches
exactly the leading and trailing runs). -/
def trimWsDash (s : Str) : Str :=
  ((s.dropWhile dashWsC).reverse.dropWhile dashWsC).reverse

/-- Title-casing pass `replace(/\b\w/g, c => c.toUpperCase())`: upper-case
every word character at a word boundary, i.e. not preceded by a word
character. -/
def titleCase : Bool → Str → Str
  | _, [] => []
  | prevWord, c :: rest =>
    (if !prevWord && isWordChar c then upperChar c else c) ::
      titleCase (isWordChar c) rest

/-- Model of `ReceiptParser.cleanItemName`. -/
def cleanItemName (name : Str) : Str :=
  titleCase false ((jsTrim (trimWsDash (collapseWs name))).map lowerChar)

/-
The line classifier and the extraction pipeline (src/combined.js,
`categorizeLine`, `extractItems`, `extractSummary`, `extractMetadata`,
`parseReceiptText`).
-/

/-- Whether `s` starts with `pat`. -/
def startsWithSeq (pat s : Str) : Bool := s.take pat.length == pat

/-- Model of `String.prototype.includes`. -/
def containsSeq (pat : Str) : Str → Bool
  | [] => pat.isEmpty
  | c :: rest => startsWithSeq pat (c :: rest) || containsSeq pat rest

/-- Result of `categorizeLine`: the `{type, data}` record of the source
as a tagged variant. -/
inductive Categorized where
  | unknown
  | item (name : Str) (price : ℚ) (quantity : Nat) (confidence : ℚ)
  | tax (amount : ℚ)
  | tip (amount : ℚ)
  | total (amount : ℚ)
  | subtotal (amount : ℚ)
deriving DecidableEq, Repr

/-- Fallback rule of `categorizeLine`: any line with a price-shaped
substring, with the street-address guard. -/
def categorizeFallback (line : Str) : Categorized :=
  match priceSpan line with
  | some (a, b) =>
    let price := parsePrice (subSpan line a b)
    let name := jsTrim (line.take a ++ line.drop b)
    let quantity := extractQuantity name
    if 0 < price ∧ isValidItemName name ∧ 2 < name.length then
      if (100 ≤ price ∧ price ≤ 99999) ∧ streetLeadTest name then .unknown
      else .item (removeQuantityFromName name quantity) price quantity (7/10)
    else .unknown
  | none => .unknown

/-- Shared body of the `itemLine` rule of `categorizeLine` (`qtyOpt` is
`itemMatch[1]` parsed, when the optional group participated). -/
def categorizeItemCore (line : Str) (qtyOpt : Option Nat)
    (rawName priceStr : Str) : Categorized :=
  let name0 := jsTrim rawName
  let price := parsePrice priceStr
  let extractedQty :=
    match qtyOpt with
    | some n => if n = 0 then extractQuantity name0 else n
    | none => extractQuantity name0
  let name := removeQuantityFromName name0 extractedQty
  if 0 < price ∧ isValidItemName name then
    let conf : ℚ :=
      if containsSeq "...".data line || containsSeq "---".data line then 9/10
      else
        match qtyOpt with
        | some n => if n = 0 then 17/20 else 19/20
        | none => 17/20
    .item name price extractedQty conf
  else categorizeFallback line

/-- Standard item-line rule of `categorizeLine`. -/
def categorizeItemRule (line : Str) : Categorized :=
  match itemACap line with
  | some (q, rawName, priceStr) =>
    categorizeItemCore line (some (digitsVal q)) rawName priceStr
  | none =>
    match itemBCap line with
    | some (rawName, priceStr) => categorizeItemCore line none rawName priceStr
    | none => categorizeFallback line

/-- Summary rules of `categorizeLine`, tried in source order
tax → tip → total → subtotal, then the later item rules. -/
def categorizeSummaryRules (line : Str) : Categorized :=
  match sumCap taxPat line with
  | some a => .tax (parsePrice a)
  | none =>
    match sumCap tipPat line with
    | some a => .tip (parsePrice a)
    | none =>
      match sumCap totalPat line with
      | some a => .total (parsePrice a)
      | none =>
        match sumCap subtotalPat line with
        | some a => .subtotal (parsePrice a)
        | none => categorizeItemRule line

/-- Model of `ReceiptParser.categorizeLine` (src/combined.js 1063-1173):
the dotted-item rule is tried first, then the summary rules, then the
standard item rule, then the trailing-price fallback. -/
def categorizeLine (line : Str) : Categorized :=
  match dottedCap line with
  | some (rawName, priceStr) =>
    let name := jsTrim rawName
    let price := parsePrice priceStr
    let quantity := extractQuantity name
    if 0 < price ∧ isValidItemName name then
      .item (removeQuantityFromName name quantity) price quantity (23/25)
    else categorizeSummaryRules line
  | none => categorizeSummaryRules line

/-- An extracted line item.  The JS object also carries the raw line
(`raw`), used only for the unclaimed `mergedFrom` debug field of the
fuzzy merge; it is omitted.  The quantity is a JS number, hence `ℚ`. -/
structure Item where
  name : Str
  price : ℚ
  quantity : ℚ
  confidence : ℚ
deriving DecidableEq, Repr

/-- Model of `ReceiptParser.extractItems`: keep the item-classified
lines (`quantity || 1` replaces a zero quantity by 1). -/
def extractItems (lines : List Str) : List Item :=
  lines.filterMap (fun line =>
    match categorizeLine line with
    | .item n p q c => some ⟨cleanItemName n, p, (if q = 0 then 1 else (q : ℚ)), c⟩
    | _ => none)

/-- Receipt-level summary record. -/
structure Summary where
  tax : ℚ
  tip : ℚ
  total : ℚ
  subtotal : ℚ
deriving DecidableEq, Repr

/-- One step of the summary fold: a classified summary line overwrites
its field (last occurrence wins). -/
def summaryStep (acc : Summary) (line : Str) : Summary :=
  match categorizeLine line with
  | .tax a => { acc with tax := a }
  | .tip a => { acc with tip := a }
  | .total a => { acc with total := a }
  | .subtotal a => { acc with subtotal := a }
  | _ => acc

/-- Model of `ReceiptParser.extractSummary`: fold the lines, then infer
a missing subtotal from total − tax − tip when subtotal is 0 and both
total and tax are positive. -/
def extractSummary (lines : List Str) : Summary :=
  let s := lines.foldl summaryStep ⟨0, 0, 0, 0⟩
  if s.subtotal = 0 ∧ 0 < s.total ∧ 0 < s.tax then
    { s with subtotal := s.total - s.tax - s.tip }
  else s

/-- Merchant and date metadata. -/
structure Metadata where
  merchant : Str
  date : Str
deriving DecidableEq, Repr

/-- Acceptance test for a merchant line (merchant shape, length in
(2, 50), not a date, not a price). -/
def merchantOk (line : Str) : Bool :=
  merchantTest line && 2 < line.length && line.length < 50 &&
  !dateTest line && !priceTest line

/-- First acceptable merchant line (the source loops over the first
`min(5, lines.length)` lines and breaks at the first hit). -/
def findMerchant : List Str → Str
  | [] => []
  | l :: ls => if merchantOk l then jsTrim l else findMerchant ls

/-- Manual date format `(\d{1,2})[\/\-\.](\d{1,2})[\/\-\.](\d{4})`. -/
def fmt1Pat : List PE :=
  [.cstart 1, .se (.cls Char.isDigit 1 (some 2) false), .cend 1,
   .se (.cls dateSepC 1 (some 1) false),
   .cstart 2, .se (.cls Char.isDigit 1 (some 2) false), .cend 2,
   .se (.cls dateSepC 1 (some 1) false),
   .cstart 3, .se (.cls Char.isDigit 4 (some 4) false), .cend 3]

/-- Manual date format `(\d{4})[\/\-\.](\d{1,2})[\/\-\.](\d{1,2})`. -/
def fmt2Pat : List PE :=
  [.cstart 1, .se (.cls Char.isDigit 4 (some 4) false), .cend 1,
   .se (.cls dateSepC 1 (some 1) false),
   .cstart 2, .se (.cls Char.isDigit 1 (some 2) false), .cend 2,
   .se (.cls dateSepC 1 (some 1) false),
   .cstart 3, .se (.cls Char.isDigit 1 (some 2) false), .cend 3]

/-- Three captures of an unanchored format search. -/
def fmtCap3 (pat : List PE) (s : Str) : Option (Str × Str × Str) :=
  (searchPat pat s).bind (fun r =>
    (capOf s r.2.2 1).bind (fun a =>
      (capOf s r.2.2 2).bind (fun b =>
        (capOf s r.2.2 3).map (fun c => (a, b, c)))))

/-- Model of `String(x).padStart(2, "0")`. -/
def padStart2 (s : Str) : Str := List.replicate (2 - s.length) '0' ++ s

/-- Model of the host `new Date(str)` / `toISOString` happy path of
`normalizeDate`.  The host Date parser is external to this repository
and no claim depends on the normalized date value, so it is approximated
as never recognizing the input, falling through to the repository's own
manual format branch. -/
def jsDateIso (_ : Str) : Option Str := none

/-- Model of `ReceiptParser.normalizeDate` (manual branch: note the
source assembles `year-month-day` from `order`-permuted groups). -/
def normalizeDate (s : Str) : Str :=
  if s = [] then []
  else
    match jsDateIso s with
    | some r => r
    | none =>
      match fmtCap3 fmt1Pat s with
      | some (g1, g2, g3) => g3 ++ '-' :: padStart2 g1 ++ '-' :: padStart2 g2
      | none =>
        match fmtCap3 fmt2Pat s with
        | some (g1, g2, g3) => g1 ++ '-' :: padStart2 g3 ++ '-' :: padStart2 g2
        | none => s

/-- First line containing a date (after stripping a leading `date:`
label), normalized. -/
def findDate : List Str → Str
  | [] => []
  | l :: ls =>
    match dateCap (replaceLead dateLabelPat l) with
    | some d => normalizeDate d
    | none => findDate ls

/-- Model of `ReceiptParser.extractMetadata`: merchant from the first 5
lines of its input, date from any line. -/
def extractMetadata (lines : List Str) : Metadata :=
  ⟨findMerchant (lines.take 5), findDate lines⟩

/-- Model of `Math.round(q * 100) / 100` (round half towards +∞). -/
def jsRound2 (q : ℚ) : ℚ := (⌊q * 100 + 1/2⌋ : ℚ) / 100

/-- Per-item confidence term `(item.confidence || 0.5)`. -/
def itemConfTerm (it : Item) : ℚ := if it.confidence = 0 then 1/2 else it.confidence

/-- Model of `ReceiptParser.calculateConfidence` (src/combined.js
1396-1421). -/
def calculateConfidence (items : List Item) (summary : Summary) : ℚ :=
  if items.length = 0 then 0
  else
    let itemConfidence :=
      (items.foldl (fun acc it => acc + itemConfTerm it) 0) / (items.length : ℚ)
    let itemsTotal := items.foldl (fun acc it => acc + it.price * it.quantity) 0
    let totalConfidence : ℚ :=
      if 0 < summary.total then
        let diff := |itemsTotal + summary.tax + summary.tip - summary.total|
        let tolerance := summary.total * (1/20)
        if diff ≤ tolerance then 1
        else if diff ≤ tolerance * 2 then 4/5
        else 1/2
      else 1
    jsRound2 (itemConfidence * (3/5) + totalConfidence * (2/5))

/-- Empty receipt returned for empty input. -/
structure Receipt where
  merchant : Str
  date : Str
  items : List Item
  tax : ℚ
  tip : ℚ
  total : ℚ
  subtotal : ℚ
  confidence : ℚ
deriving DecidableEq, Repr

/-- Model of `ReceiptParser.createEmptyReceipt`. -/
def createEmptyReceipt : Receipt := ⟨[], [], [], 0, 0, 0, 0, 0⟩

/-- Newline normalization `replace(/\r\n/g, "\n").replace(/\r/g, "\n")`. -/
def normNl : Str → Str
  | [] => []
  | '\r' :: '\n' :: rest => '\n' :: normNl rest
  | '\r' :: rest => '\n' :: normNl rest
  | c :: rest => c :: normNl rest

/-- Trimmed non-empty lines of the raw text with the boilerplate
skip-list applied — the sequence produced by
`ReceiptParser.preprocessText` and fed to every extraction stage. -/
def preprocessText (text : Str) : List Str :=
  ((splitSep (fun c => c == '\n') (normNl text)).map jsTrim).filter
    (fun l => !l.isEmpty && !skipTest l)

/-- Trimmed non-empty lines of the raw text before the skip-list is
applied (the "unfiltered sequence" of the specification, derived from
the same preprocessing code without the skip filter). -/
def rawLines (text : Str) : List Str :=
  ((splitSep (fun c => c == '\n') (normNl text)).map jsTrim).filter
    (fun l => !l.isEmpty)

/-- Model of `ReceiptParser.parseReceiptText` (src/combined.js 997-1019):
non-string input cannot arise in the typed model, and falsy string input
is exactly the empty string. -/
def parseReceiptText (text : Str) : Receipt :=
  if text = [] then createEmptyReceipt
  else
    let lines := preprocessText text
    let items := extractItems lines
    let summary := extractSummary lines
    let metadata := extractMetadata lines
    ⟨metadata.merchant, metadata.date, items, summary.tax, summary.tip,
     summary.total, summary.subtotal, calculateConfidence items summary⟩

/-
Fuzzy matching (src/combined.js 1444-1546): Levenshtein distance,
similarity, and the greedy merge of near-duplicate items.
-/

/-- The dynamic-programming table of `levenshteinDistance` read as a
recurrence on its indices: `dpFun a b fuel i j` is `dp[i][j]` of the
source (`dp[i][0] = i`, `dp[0][j] = j`, and the source recurrence for
the inner cells, where cell `(i+1, j+1)` compares `a[i]` with `b[j]`).
The structural `fuel` argument only drives the recursion: every
recursive call decreases `i + j`, so any `fuel > i + j` computes the
table value (`dpFun_fuel_irrel`). -/
def dpFun (a b : Str) : Nat → Nat → Nat → Nat
  | 0, _, _ => 0
  | _ + 1, 0, j => j
  | _ + 1, i + 1, 0 => i + 1
  | fuel + 1, i + 1, j + 1 =>
    if a.get? i = b.get? j then dpFun a b fuel i j
    else
      Nat.min (Nat.min (dpFun a b fuel i (j + 1) + 1) (dpFun a b fuel (i + 1) j + 1))
        (dpFun a b fuel i j + 1)

/-- Model of `ReceiptParser.levenshteinDistance`. -/
def levenshteinDistance (s1 s2 : Str) : Nat :=
  dpFun s1 s2 (s1.length + s2.length + 1) s1.length s2.length

/-- Model of `ReceiptParser.calculateSimilarity`:
`1 - distance / maxLength` on the lower-cased trimmed strings, with the
two early `1.0` returns of the source. -/
def calculateSimilarity (str1 str2 : Str) : ℚ :=
  let s1 := jsTrim (str1.map lowerChar)
  let s2 := jsTrim (str2.map lowerChar)
  if s1 = s2 then 1
  else
    let maxLength := max s1.length s2.length
    if maxLength = 0 then 1
    else 1 - (levenshteinDistance s1 s2 : ℚ) / (maxLength : ℚ)

/-- Model of `reduce((sum, x) => sum + x, 0)`. -/
def listSum (l : List ℚ) : ℚ := l.foldl (· + ·) 0

/-- Model of `Math.max(...)` over a non-empty list given as head and
tail. -/
def maxConf (c : ℚ) (cs : List ℚ) : ℚ := cs.foldl max c

/-- Merge one similarity group as `mergeSimilarItems` does: seed name,
mean price, summed quantity, maximal confidence × 0.95. -/
def mergeGroup : List Item → Item
  | [] => ⟨[], 0, 0, 0⟩
  | x :: rest =>
    ⟨x.name,
     listSum ((x :: rest).map Item.price) / ((x :: rest).length : ℚ),
     listSum ((x :: rest).map Item.quantity),
     maxConf x.confidence (rest.map Item.confidence) * (19/20)⟩

/-- Greedy single-pass clustering loop of `mergeSimilarItems`.  The
source loop marks in `used` every later item whose similarity to the
current seed reaches the threshold; the unmarked remainder is exactly
the filtered `rest` of this recursion.  The structural `fuel` argument
only drives the recursion: `rest` is shorter than the input, so any
`fuel ≥ items.length` computes the loop result (`mergeGo_fuel_irrel`). -/
def mergeGo (t : ℚ) : Nat → List Item → List Item
  | 0, _ => []
  | _ + 1, [] => []
  | fuel + 1, x :: xs =>
    mergeGroup (x :: xs.filter (fun y => decide (t ≤ calculateSimilarity x.name y.name))) ::
      mergeGo t fuel (xs.filter (fun y => !decide (t ≤ calculateSimilarity x.name y.name)))

/-- Model of `ReceiptParser.mergeSimilarItems`. -/
def mergeSimilarItems (items : List Item) (t : ℚ) : List Item :=
  mergeGo t items.length items

/-- The summary-rule cascade of `categorizeLine` in source order
(tax, tip, total, subtotal), as a partial classification: `some` exactly
when the line matches one of the four summary patterns. -/
def firstSummaryCat (line : Str) : Option Categorized :=
  match sumCap taxPat line with
  | some a => some (.tax (parsePrice a))
  | none =>
    match sumCap tipPat line with
    | some a => some (.tip (parsePrice a))
    | none =>
      match sumCap totalPat line with
      | some a => some (.total (parsePrice a))
      | none =>
        match sumCap subtotalPat line with
        | some a => some (.subtotal (parsePrice a))
        | none => none

/-- Tax amount of a classification, if it is one. -/
def pickTax : Categorized → Option ℚ
  | .tax a => some a
  | _ => none

/-- Tip amount of a classification, if it is one. -/
def pickTip : Categorized → Option ℚ
  | .tip a => some a
  | _ => none

/-- Total amount of a classification, if it is one. -/
def pickTotal : Categorized → Option ℚ
  | .total a => some a
  | _ => none

/-- Subtotal amount of a classification, if it is one. -/
def pickSubtotal : Categorized → Option ℚ
  | .subtotal a => some a
  | _ => none

/-- The last amount of the given summary kind over the classified line
sequence, 0 if the kind never occurs. -/
def lastSummaryAmount (pick : Categorized → Option ℚ) (lines : List Str) : ℚ :=
  ((lines.filterMap (fun l => pick (categorizeLine l))).getLast?).getD 0

/-- The claim's formula for `calculateConfidence` (stated from the
specification's words, for comparison with the source): the totals
consistency band is always computed against the declared total, with no
positivity guard on the total. -/
def calculateConfidenceSpec (items : List Item) (summary : Summary) : ℚ :=
  if items.length = 0 then 0
  else
    let itemConfidence :=
      (items.foldl (fun acc it => acc + itemConfTerm it) 0) / (items.length : ℚ)
    let itemsTotal := items.foldl (fun acc it => acc + it.price * it.quantity) 0
    let diff := |itemsTotal + summary.tax + summary.tip - summary.total|
    let tolerance := summary.total * (1/20)
    let totalConfidence : ℚ :=
      if diff ≤ tolerance then 1 else if diff ≤ tolerance * 2 then 4/5 else 1/2
    jsRound2 (itemConfidence * (3/5) + totalConfidence * (2/5))

/-
Helper lemmas about the classifier: every item-producing branch of
`categorizeLine` is guarded by a positivity check on the parsed price.
-/

theorem categorizeFallback_item_price_pos {line : Str} {n : Str} {p : ℚ}
    {q : Nat} {c : ℚ} (h : categorizeFallback line = .item n p q c) : 0 < p := by
  unfold categorizeFallback at h
  split at h
  · dsimp only at h
    split at h
    · split at h
      · exact absurd h (by simp)
      · rename_i hg _
        obtain ⟨-, h2, -, -⟩ := Categorized.item.inj h
        exact h2 ▸ hg.1
    · exact absurd h (by simp)
  · exact absurd h (by simp)

theorem categorizeItemCore_item_price_pos {line : Str} {qtyOpt : Option Nat}
    {rawName priceStr : Str} {n : Str} {p : ℚ} {q : Nat} {c : ℚ}
    (h : categorizeItemCore line qtyOpt rawName priceStr = .item n p q c) :
    0 < p := by
  unfold categorizeItemCore at h
  dsimp only at h
  split at h
  · rename_i hg
    obtain ⟨-, h2, -, -⟩ := Categorized.item.inj h
    exact h2 ▸ hg.1
  · exact categorizeFallback_item_price_pos h

theorem categorizeItemRule_item_price_pos {line : Str} {n : Str} {p : ℚ}
    {q : Nat} {c : ℚ} (h : categorizeItemRule line = .item n p q c) : 0 < p := by
  unfold categorizeItemRule at h
  split at h
  · exact categorizeItemCore_item_price_pos h
  · split at h
    · exact categorizeItemCore_item_price_pos h
    · exact categorizeFallback_item_price_pos h

theorem categorizeSummaryRules_item_price_pos {line : Str} {n : Str} {p : ℚ}
    {q : Nat} {c : ℚ} (h : categorizeSummaryRules line = .item n p q c) :
    0 < p := by
  unfold categorizeSummaryRules at h
  split at h
  · exact absurd h (by simp)
  · split at h
    · exact absurd h (by simp)
    · split at h
      · exact absurd h (by simp)
      · split at h
        · exact absurd h (by simp)
        · exact categorizeItemRule_item_price_pos h

theorem categorizeLine_item_price_pos {line : Str} {n : Str} {p : ℚ}
    {q : Nat} {c : ℚ} (h : categorizeLine line = .item n p q c) : 0 < p := by
  unfold categorizeLine at h
  split at h
  · dsimp only at h
    split at h
    · rename_i hg
      obtain ⟨-, h2, -, -⟩ := Categorized.item.inj h
      exact h2 ▸ hg.1
    · exact categorizeSummaryRules_item_price_pos h
  · exact categorizeSummaryRules_item_price_pos h

theorem extractItems_price_pos {lines : List Str} {it : Item}
    (h : it ∈ extractItems lines) : 0 < it.price := by
  unfold extractItems at h
  rw [List.mem_filterMap] at h
  obtain ⟨line, -, hl⟩ := h
  revert hl
  split
  · rename_i n p q c hc
    intro hl
    obtain ⟨rfl⟩ := Option.some.inj hl
    exact categorizeLine_item_price_pos hc
  · intro hl
    exact absurd hl (by simp)

/-- C10: for every input string, every item in the items list returned by
`parseReceiptText` has price strictly greater than 0 — each
item-producing branch of the classifier requires the parsed price to be
positive. -/
theorem parseReceiptText_item_price_pos :
    ∀ (text : Str), ∀ it ∈ (parseReceiptText text).items, 0 < it.price := by
  intro text it h
  unfold parseReceiptText at h
  split at h
  · simp [createEmptyReceipt] at h
  · dsimp only at h
    exact extractItems_price_pos h

/-- Witness for C10 at the concrete input `"Soda $3.00"`. -/
theorem parseReceiptText_item_price_pos_witness :
    0 < (Item.mk "Soda".data 3 1 (17/20)).price :=
  parseReceiptText_item_price_pos "Soda $3.00".data
    (Item.mk "Soda".data 3 1 (17/20)) (by decide)

/-
Claim C1: order of the classifier rules.
-/

theorem categorizeSummaryRules_eq_of_firstSummaryCat {line : Str}
    {c : Categorized} (h : firstSummaryCat line = some c) :
    categorizeSummaryRules line = c := by
  unfold firstSummaryCat at h
  unfold categorizeSummaryRules
  cases h1 : sumCap taxPat line with
  | some a => rw [h1] at h; exact (Option.some.inj h)
  | none =>
    rw [h1] at h
    cases h2 : sumCap tipPat line with
    | some a => rw [h2] at h; exact (Option.some.inj h)
    | none =>
      rw [h2] at h
      cases h3 : sumCap totalPat line with
      | some a => rw [h3] at h; exact (Option.some.inj h)
      | none =>
        rw [h3] at h
        cases h4 : sumCap subtotalPat line with
        | some a => rw [h4] at h; exact (Option.some.inj h)
        | none => rw [h4] at h; exact absurd h (by simp)

/-- C1 counterexample: the line `"Sales Tax   $3.16"` (three filler
spaces) matches the Tax summary rule with trailing amount `3.16`, yet
`categorizeLine` classifies it as an item, because the dotted-item rule
is evaluated first in the source. -/
theorem categorizeLine_summary_priority_ce :
    sumCap taxPat "Sales Tax   $3.16".data = some "3.16".data ∧
    categorizeLine "Sales Tax   $3.16".data =
      .item "Sales Tax".data (79/25) 1 (23/25) := by
  constructor
  · decide
  · decide

/-- C1 amended: the dotted-item rule is evaluated first; the summary
rules (Tax, Tip, Total, Subtotal) are evaluated next, before the
standard item rule and before the fallback trailing-price rule.  Hence a
line matching a summary rule is classified as that summary kind unless
the dotted-item rule already claimed it as an item with confidence
0.92. -/
theorem categorizeLine_summary_before_item_rules :
    ∀ (line : Str) (c : Categorized), firstSummaryCat line = some c →
      categorizeLine line = c ∨
      ∃ n p q, categorizeLine line = Categorized.item n p q (23/25) := by
  intro line c h
  unfold categorizeLine
  cases hd : dottedCap line with
  | none => exact Or.inl (categorizeSummaryRules_eq_of_firstSummaryCat h)
  | some g =>
    dsimp only
    split
    · exact Or.inr ⟨_, _, _, rfl⟩
    · exact Or.inl (categorizeSummaryRules_eq_of_firstSummaryCat h)

/-- Witness for the amended C1 at the concrete line `"Tip: $8.00"`. -/
theorem categorizeLine_summary_before_item_rules_witness :
    categorizeLine "Tip: $8.00".data = Categorized.tip 8 ∨
    ∃ n p q, categorizeLine "Tip: $8.00".data = Categorized.item n p q (23/25) :=
  categorizeLine_summary_before_item_rules "Tip: $8.00".data
    (Categorized.tip 8) (by decide)

/-
Claim C3: the summary fold keeps the last occurrence of each kind and
infers a missing subtotal.
-/

theorem getLast?_cons_getD {α} (a : α) (xs : List α) (d : α) :
    ((a :: xs).getLast?).getD d = (xs.getLast?).getD a := by
  cases xs with
  | nil => simp
  | cons b ys =>
    rw [List.getLast?_cons_cons]
    cases h : (b :: ys).getLast? with
    | none => simp at h
    | some x => simp

theorem foldl_summaryStep_field (f : Summary → ℚ) (pick : Categorized → Option ℚ)
    (hstep : ∀ acc l, f (summaryStep acc l) = (pick (categorizeLine l)).getD (f acc)) :
    ∀ (lines : List Str) (acc : Summary),
      f (lines.foldl summaryStep acc) =
        ((lines.filterMap (fun l => pick (categorizeLine l))).getLast?).getD (f acc) := by
  intro lines
  induction lines with
  | nil => intro acc; simp
  | cons l ls ih =>
    intro acc
    rw [List.foldl_cons, ih (summaryStep acc l), List.filterMap_cons]
    cases hp : pick (categorizeLine l) with
    | none => rw [hstep acc l, hp]; rfl
    | some a => rw [hstep acc l, hp, getLast?_cons_getD]; rfl

theorem summaryStep_tax (acc : Summary) (l : Str) :
    (summaryStep acc l).tax = (pickTax (categorizeLine l)).getD acc.tax := by
  unfold summaryStep pickTax
  cases categorizeLine l <;> rfl

theorem summaryStep_tip (acc : Summary) (l : Str) :
    (summaryStep acc l).tip = (pickTip (categorizeLine l)).getD acc.tip := by
  unfold summaryStep pickTip
  cases categorizeLine l <;> rfl

theorem summaryStep_total (acc : Summary) (l : Str) :
    (summaryStep acc l).total = (pickTotal (categorizeLine l)).getD acc.total := by
  unfold summaryStep pickTotal
  cases categorizeLine l <;> rfl

theorem summaryStep_subtotal (acc : Summary) (l : Str) :
    (summaryStep acc l).subtotal = (pickSubtotal (categorizeLine l)).getD acc.subtotal := by
  unfold summaryStep pickSubtotal
  cases categorizeLine l <;> rfl

/-- C3: `extractSummary` keeps the last occurrence of each summary kind
over the classified line sequence, and after the fold, when
subtotal = 0, total > 0 and tax > 0 it derives subtotal as
total − tax − tip (otherwise the folded values are returned
unchanged). -/
theorem extractSummary_last_wins (lines : List Str) :
    (extractSummary lines).tax = lastSummaryAmount pickTax lines ∧
    (extractSummary lines).tip = lastSummaryAmount pickTip lines ∧
    (extractSummary lines).total = lastSummaryAmount pickTotal lines ∧
    (extractSummary lines).subtotal =
      (if lastSummaryAmount pickSubtotal lines = 0 ∧
          0 < lastSummaryAmount pickTotal lines ∧
          0 < lastSummaryAmount pickTax lines
       then lastSummaryAmount pickTotal lines - lastSummaryAmount pickTax lines -
            lastSummaryAmount pickTip lines
       else lastSummaryAmount pickSubtotal lines) := by
  have htax := foldl_summaryStep_field Summary.tax pickTax summaryStep_tax lines ⟨0, 0, 0, 0⟩
  have htip := foldl_summaryStep_field Summary.tip pickTip summaryStep_tip lines ⟨0, 0, 0, 0⟩
  have htot := foldl_summaryStep_field Summary.total pickTotal summaryStep_total lines ⟨0, 0, 0, 0⟩
  have hsub := foldl_summaryStep_field Summary.subtotal pickSubtotal summaryStep_subtotal
    lines ⟨0, 0, 0, 0⟩
  unfold extractSummary lastSummaryAmount
  dsimp only
  rw [htax, htip, htot, hsub]
  split <;> simp_all

/-
Claim C4: the merge rule of the fuzzy deduplicator.
-/

theorem mergeGo_fuel_irrel (t : ℚ) :
    ∀ (f1 : Nat) (f2 : Nat) (items : List Item), items.length ≤ f1 →
      items.length ≤ f2 → mergeGo t f1 items = mergeGo t f2 items := by
  intro f1
  induction f1 with
  | zero =>
    intro f2 items h1 h2
    have : items = [] := List.length_eq_zero.mp (Nat.le_zero.mp h1)
    subst this
    cases f2 <;> rfl
  | succ n ih =>
    intro f2 items h1 h2
    cases items with
    | nil => cases f2 <;> rfl
    | cons x xs =>
      cases f2 with
      | zero => exact absurd h2 (by simp)
      | succ m =>
        have hx : xs.length ≤ n := Nat.le_of_succ_le_succ (by simpa using h1)
        have hy : xs.length ≤ m := Nat.le_of_succ_le_succ (by simpa using h2)
        have hf : (xs.filter (fun y => !decide (t ≤ calculateSimilarity x.name y.name))).length ≤ xs.length :=
          List.length_filter_le _ _
        unfold mergeGo
        rw [ih m _ (Nat.le_trans hf hx) (Nat.le_trans hf hy)]

theorem mergeSimilarItems_cons (x : Item) (xs : List Item) (t : ℚ) :
    mergeSimilarItems (x :: xs) t =
      mergeGroup (x :: xs.filter (fun y => decide (t ≤ calculateSimilarity x.name y.name))) ::
        mergeSimilarItems (xs.filter (fun y => !decide (t ≤ calculateSimilarity x.name y.name))) t := by
  have h1 : mergeSimilarItems (x :: xs) t =
      mergeGroup (x :: xs.filter (fun y => decide (t ≤ calculateSimilarity x.name y.name))) ::
        mergeGo t xs.length (xs.filter (fun y => !decide (t ≤ calculateSimilarity x.name y.name))) := rfl
  rw [h1, mergeGo_fuel_irrel t xs.length _ _ (List.length_filter_le _ _) (Nat.le_refl _)]
  rfl

theorem listSum_shift : ∀ (l : List ℚ) (c : ℚ), l.foldl (· + ·) c = c + l.foldl (· + ·) 0 := by
  intro l
  induction l with
  | nil => intro c; simp
  | cons b l ih =>
    intro c
    rw [List.foldl_cons, List.foldl_cons, ih (c + b), ih (0 + b)]
    ring

theorem listSum_cons (a : ℚ) (l : List ℚ) : listSum (a :: l) = a + listSum l := by
  unfold listSum
  rw [List.foldl_cons, listSum_shift l (0 + a)]
  ring

theorem listSum_filter_split (f : Item → ℚ) (p : Item → Bool) :
    ∀ l : List Item,
      listSum ((l.filter p).map f) + listSum ((l.filter (fun y => !p y)).map f) =
        listSum (l.map f) := by
  intro l
  induction l with
  | nil => simp [listSum]
  | cons a l ih =>
    by_cases h : p a
    · simp only [List.filter_cons, h, if_pos, List.map_cons, listSum_cons]
      rw [← ih]
      simp [listSum_cons]
      ring
    · have h2 : p a = false := by simpa using h
      simp only [List.filter_cons, h2, List.map_cons, listSum_cons]
      simp only [Bool.not_false, if_pos, if_neg, List.map_cons, listSum_cons]
      rw [← ih]
      simp [listSum_cons]
      ring

theorem mergeGroup_quantity (x : Item) (rest : List Item) :
    (mergeGroup (x :: rest)).quantity = listSum ((x :: rest).map Item.quantity) := rfl

theorem mergeSimilarItems_qty_sum_aux :
    ∀ (n : Nat) (items : List Item), items.length ≤ n → ∀ t : ℚ,
      listSum ((mergeSimilarItems items t).map Item.quantity) =
        listSum (items.map Item.quantity) := by
  intro n
  induction n with
  | zero =>
    intro items h t
    have : items = [] := List.length_eq_zero.mp (Nat.le_zero.mp h)
    subst this
    rfl
  | succ n ih =>
    intro items h t
    cases items with
    | nil => rfl
    | cons x xs =>
      have hx : xs.length ≤ n := Nat.le_of_succ_le_succ (by simpa using h)
      rw [mergeSimilarItems_cons, List.map_cons, listSum_cons, mergeGroup_quantity,
        ih _ (Nat.le_trans (List.length_filter_le _ _) hx) t]
      rw [List.map_cons, listSum_cons, List.map_cons, listSum_cons]
      rw [add_assoc, listSum_filter_split Item.quantity
        (fun y => decide (t ≤ calculateSimilarity x.name y.name)) xs]

/-- C4 counterexample: a group of size 1 does not pass through
unchanged — its confidence is still multiplied by 0.95. -/
theorem mergeSimilarItems_singleton_ce :
    mergeSimilarItems [Item.mk "A".data 1 1 1] (17/20) ≠ [Item.mk "A".data 1 1 1] := by
  decide

/-- C4 amended: every greedy similarity group (seeded by the first
unassigned item, joined by every later unassigned item whose similarity
to the seed meets the threshold) merges into a single item with the
seed's name, the arithmetic mean of the group's prices, the sum of the
group's quantities, and the maximum of the group's confidences
multiplied by 0.95 — including groups of size 1, whose name, price and
quantity are unchanged but whose confidence also receives the 0.95
factor.  The total quantity is preserved by the merge. -/
theorem mergeSimilarItems_group_rule :
    (∀ (x : Item) (xs : List Item) (t : ℚ),
      mergeSimilarItems (x :: xs) t =
        Item.mk x.name
          (listSum ((x :: xs.filter (fun y => decide (t ≤ calculateSimilarity x.name y.name))).map Item.price) /
            (((x :: xs.filter (fun y => decide (t ≤ calculateSimilarity x.name y.name))).length : ℚ)))
          (listSum ((x :: xs.filter (fun y => decide (t ≤ calculateSimilarity x.name y.name))).map Item.quantity))
          (maxConf x.confidence ((xs.filter (fun y => decide (t ≤ calculateSimilarity x.name y.name))).map Item.confidence) * (19/20)) ::
          mergeSimilarItems (xs.filter (fun y => !decide (t ≤ calculateSimilarity x.name y.name))) t) ∧
    (∀ (items : List Item) (t : ℚ),
      listSum ((mergeSimilarItems items t).map Item.quantity) =
        listSum (items.map Item.quantity)) := by
  constructor
  · intro x xs t
    rw [mergeSimilarItems_cons]
    rfl
  · intro items t
    exact mergeSimilarItems_qty_sum_aux items.length items (Nat.le_refl _) t

/-
Claim C5: totality and sign of `parsePrice`.
-/

theorem splitSep_not_mem (p : Char → Bool) (c : Char) :
    ∀ (l : Str), c ∉ l → ∀ piece ∈ splitSep p l, c ∉ piece := by
  intro l
  induction l with
  | nil =>
    intro _ piece hp
    unfold splitSep at hp
    simp at hp
    simp [hp]
  | cons a rest ih =>
    intro h piece hp
    have hca : c ≠ a := fun e => h (e ▸ List.mem_cons_self a rest)
    have hcr : c ∉ rest := fun e => h (List.mem_cons_of_mem a e)
    unfold splitSep at hp
    by_cases hpa : p a
    · simp only [hpa, if_pos] at hp
      rcases List.mem_cons.mp hp with h1 | h1
      · simp [h1]
      · exact ih hcr piece h1
    · simp only [hpa] at hp
      rw [if_neg (by simp)] at hp
      revert hp
      split
      · intro hp
        rcases List.mem_cons.mp hp with h1 | h1
        · subst h1
          simp [hca]
        · simp at h1
      · rename_i hd tl heq
        intro hp
        rcases List.mem_cons.mp hp with h1 | h1
        · subst h1
          intro hmem
          rcases List.mem_cons.mp hmem with h2 | h2
          · exact hca h2
          · exact ih hcr hd (heq ▸ List.mem_cons_self hd tl) h2
        · exact ih hcr piece (heq ▸ List.mem_cons_of_mem hd h1)

theorem parseFloatQ_nonneg {s : Str} (h : '-' ∉ s) {v : ℚ}
    (hv : parseFloatQ s = some v) : 0 ≤ v := by
  unfold parseFloatQ at hv
  dsimp only at hv
  have hs1 : '-' ∉ s.dropWhile jsWs :=
    fun e => h ((List.dropWhile_sublist jsWs (l := s)).mem e)
  have hneg : ¬((s.dropWhile jsWs).head? = some '-') :=
    fun e => hs1 (List.mem_of_mem_head? e)
  rw [if_neg hneg] at hv
  repeat' split at hv
  all_goals
    first
      | exact Option.noConfusion hv
      | (have hv2 := Option.some.inj hv
         subst hv2
         positivity)

/-- C5 counterexample: `parsePrice` is not non-negative on every input —
a leading minus sign survives cleaning and `parseFloat`, so
`parsePrice "-5" = -5 < 0`. -/
theorem parsePrice_negative_ce :
    parsePrice "-5".data = -5 ∧ parsePrice "-5".data < 0 := by
  constructor
  · decide
  · decide

/-- C5 amended: `parsePrice` is a total function (never raises), returns
0 on any parse failure, and returns a non-negative value for every input
string that does not contain the minus character; an input with a
leading minus can yield a negative value. -/
theorem parsePrice_nonneg :
    ∀ s : Str, '-' ∉ s → 0 ≤ parsePrice s := by
  intro s h
  unfold parsePrice
  split
  · exact le_refl 0
  · dsimp only
    split
    · exact le_refl 0
    · rename_i v hv
      apply parseFloatQ_nonneg ?_ hv
      have hclean : '-' ∉ s.filter (fun c => !(curC c || jsWs c)) :=
        fun e => h (List.mem_of_mem_filter e)
      have hparts := splitSep_not_mem sepC '-' _ hclean
      revert hv
      split
      · split
        · intro _
          exact hclean
        · rename_i lastPart initRev heq
          intro _
          intro hmem
          rcases List.mem_append.mp hmem with h1 | h1
          · rw [List.mem_flatten] at h1
            obtain ⟨piece, hpiece, hmem2⟩ := h1
            rw [List.mem_reverse] at hpiece
            have : piece ∈ (splitSep sepC (s.filter (fun c => !(curC c || jsWs c)))) := by
              have : piece ∈ lastPart :: initRev := List.mem_cons_of_mem _ hpiece
              rw [← heq] at this
              exact List.mem_reverse.mp this
            exact hparts piece this hmem2
          · rcases List.mem_cons.mp h1 with h2 | h2
            · exact absurd h2 (by decide)
            · have : lastPart ∈ (splitSep sepC (s.filter (fun c => !(curC c || jsWs c)))) := by
                have : lastPart ∈ lastPart :: initRev := List.mem_cons_self _ _
                rw [← heq] at this
                exact List.mem_reverse.mp this
              exact hparts lastPart this h2
      · split
        · rename_i p1 p2 heq
          have hp1 : '-' ∉ p1 := hparts p1 (heq ▸ List.mem_cons_self _ _)
          have hp2 : '-' ∉ p2 :=
            hparts p2 (heq ▸ List.mem_cons_of_mem _ (List.mem_cons_self _ _))
          split
          · intro _ hm
            rcases List.mem_append.mp hm with h1 | h1
            · exact hp1 h1
            · rcases List.mem_cons.mp h1 with h2 | h2
              · exact absurd h2 (by decide)
              · exact hp2 h2
          · split
            · intro _ hm
              rcases List.mem_append.mp hm with h1 | h1
              · rcases List.mem_append.mp h1 with h2 | h2
                · exact hp1 h2
                · rcases List.mem_cons.mp h2 with h3 | h3
                  · exact absurd h3 (by decide)
                  · exact hp2 h3
              · simp at h1
            · split
              · intro _ hm
                rcases List.mem_append.mp hm with h1 | h1
                · exact hp1 h1
                · exact hp2 h1
              · intro _ hm
                rcases List.mem_append.mp hm with h1 | h1
                · exact hp1 h1
                · rcases List.mem_cons.mp h1 with h2 | h2
                  · exact absurd h2 (by decide)
                  · exact hp2 h2
        · intro _
          exact hclean

/-- Witness for the amended C5 at the concrete input `"$24.00"`. -/
theorem parsePrice_nonneg_witness : 0 ≤ parsePrice "$24.00".data :=
  parsePrice_nonneg "$24.00".data (by decide)

/-
Claim C2: separator disambiguation of `parsePrice`.
-/

theorem beq_false_of_digit {c d : Char} (h : c.isDigit = true)
    (hd : d.isDigit = false) : (c == d) = false := by
  cases he : c == d with
  | true => exact absurd (beq_iff_eq.mp he ▸ h) (by simp [hd])
  | false => rfl

theorem curC_of_digit {c : Char} (h : c.isDigit = true) : curC c = false := by
  unfold curC
  rw [beq_false_of_digit h (by decide), beq_false_of_digit h (by decide),
    beq_false_of_digit h (by decide)]
  rfl

theorem jsWs_of_digit {c : Char} (h : c.isDigit = true) : jsWs c = false := by
  unfold jsWs
  rw [beq_false_of_digit h (by decide), beq_false_of_digit h (by decide),
    beq_false_of_digit h (by decide), beq_false_of_digit h (by decide),
    beq_false_of_digit h (by decide), beq_false_of_digit h (by decide)]
  rfl

theorem sepC_of_digit {c : Char} (h : c.isDigit = true) : sepC c = false := by
  unfold sepC
  rw [beq_false_of_digit h (by decide), beq_false_of_digit h (by decide)]
  rfl

theorem keep_of_digit {c : Char} (h : c.isDigit = true) :
    (!(curC c || jsWs c)) = true := by
  rw [curC_of_digit h, jsWs_of_digit h]
  rfl

theorem keep_of_sep {c : Char} (h : sepC c = true) :
    (!(curC c || jsWs c)) = true := by
  have h2 : c = '.' ∨ c = ',' := by
    have h3 := h
    unfold sepC at h3
    simpa using h3
  rcases h2 with rfl | rfl <;> decide

theorem filter_keep_of_digit_or_sep :
    ∀ l : Str, (∀ c ∈ l, c.isDigit = true ∨ sepC c = true) →
      l.filter (fun c => !(curC c || jsWs c)) = l := by
  intro l h
  apply List.filter_eq_self.mpr
  intro c hc
  rcases h c hc with h1 | h1
  · exact keep_of_digit h1
  · exact keep_of_sep h1

theorem takeWhile_of_all (p : Char → Bool) :
    ∀ l : Str, (∀ c ∈ l, p c = true) → l.takeWhile p = l := by
  intro l
  induction l with
  | nil => intro _; rfl
  | cons c rest ih =>
    intro h
    rw [List.takeWhile_cons, if_pos (h c (List.mem_cons_self c rest)),
      ih (fun x hx => h x (List.mem_cons_of_mem _ hx))]

theorem dropWhile_of_all (p : Char → Bool) :
    ∀ l : Str, (∀ c ∈ l, p c = true) → l.dropWhile p = [] := by
  intro l
  induction l with
  | nil => intro _; rfl
  | cons c rest ih =>
    intro h
    rw [List.dropWhile_cons, if_pos (h c (List.mem_cons_self c rest)),
      ih (fun x hx => h x (List.mem_cons_of_mem _ hx))]

theorem takeWhile_append_stop (p : Char → Bool) :
    ∀ (a : Str) (x : Char) (r : Str), (∀ c ∈ a, p c = true) → p x = false →
      (a ++ x :: r).takeWhile p = a := by
  intro a
  induction a with
  | nil =>
    intro x r _ hx
    rw [List.nil_append, List.takeWhile_cons, if_neg (by simp [hx])]
  | cons c a2 ih =>
    intro x r h hx
    rw [List.cons_append, List.takeWhile_cons,
      if_pos (h c (List.mem_cons_self c a2)),
      ih x r (fun y hy => h y (List.mem_cons_of_mem _ hy)) hx]

theorem dropWhile_append_stop (p : Char → Bool) :
    ∀ (a : Str) (x : Char) (r : Str), (∀ c ∈ a, p c = true) → p x = false →
      (a ++ x :: r).dropWhile p = x :: r := by
  intro a
  induction a with
  | nil =>
    intro x r _ hx
    rw [List.nil_append, List.dropWhile_cons, if_neg (by simp [hx])]
  | cons c a2 ih =>
    intro x r h hx
    rw [List.cons_append, List.dropWhile_cons,
      if_pos (h c (List.mem_cons_self c a2)),
      ih x r (fun y hy => h y (List.mem_cons_of_mem _ hy)) hx]

theorem splitSep_cons (p : Char → Bool) (c : Char) (rest : Str) :
    splitSep p (c :: rest) =
      (if p c then [] :: splitSep p rest
       else
         match splitSep p rest with
         | [] => [[c]]
         | h :: t => (c :: h) :: t) := rfl

theorem splitSep_all_keep (p : Char → Bool) :
    ∀ l : Str, (∀ c ∈ l, p c = false) → splitSep p l = [l] := by
  intro l
  induction l with
  | nil => intro _; rfl
  | cons c rest ih =>
    intro h
    unfold splitSep
    rw [ih (fun x hx => h x (List.mem_cons_of_mem _ hx))]
    rw [if_neg (by simp [h c (List.mem_cons_self c rest)])]

theorem splitSep_front (p : Char → Bool) (s : Char) (hs : p s = true) :
    ∀ (a : Str) (l : Str), (∀ c ∈ a, p c = false) →
      splitSep p (a ++ s :: l) = a :: splitSep p l := by
  intro a
  induction a with
  | nil =>
    intro l _
    rw [List.nil_append, splitSep_cons, if_pos hs]
  | cons c a2 ih =>
    intro l h
    rw [List.cons_append, splitSep_cons,
      ih l (fun y hy => h y (List.mem_cons_of_mem _ hy)),
      if_neg (by simp [h c (List.mem_cons_self c a2)])]

theorem parseFloatQ_digits_dot (c : Char) (a2 fracL : Str)
    (h1 : ∀ x ∈ c :: a2, x.isDigit = true) (h2 : ∀ x ∈ fracL, x.isDigit = true) :
    parseFloatQ ((c :: a2) ++ '.' :: fracL) =
      some ((digitsVal (c :: a2) : ℚ) + (digitsVal fracL : ℚ) / 10 ^ fracL.length) := by
  have hc : c.isDigit = true := h1 c (List.mem_cons_self c a2)
  have hjw : ¬(jsWs c = true) := by simp [jsWs_of_digit hc]
  have hS : ¬((some c : Option Char) = some '-') := fun e => by
    have hce : c = '-' := Option.some.inj e
    subst hce
    exact absurd hc (by decide)
  have hS2 : ¬((some c : Option Char) = some '-' ∨ (some c : Option Char) = some '+') := by
    rintro (e | e)
    · exact hS e
    · have hce : c = '+' := Option.some.inj e
      subst hce
      exact absurd hc (by decide)
  have hdot : (some '.' : Option Char) = some '.' := rfl
  have houter : ¬((c :: a2 : Str) = [] ∧ fracL = ([] : Str)) := by simp
  have hexp : ¬((([] : Str).head? = some 'e') ∨ (([] : Str).head? = some 'E')) := by simp
  unfold parseFloatQ
  dsimp only
  rw [List.cons_append, List.dropWhile_cons, if_neg hjw,
    List.head?_cons, if_neg hS, if_neg hS2, ← List.cons_append,
    takeWhile_append_stop Char.isDigit (c :: a2) '.' fracL h1 (by decide),
    dropWhile_append_stop Char.isDigit (c :: a2) '.' fracL h1 (by decide),
    List.head?_cons, if_pos hdot, if_pos hdot, List.tail_cons,
    takeWhile_of_all Char.isDigit fracL h2,
    dropWhile_of_all Char.isDigit fracL h2,
    if_neg houter, if_neg hexp]
  norm_num

theorem parseFloatQ_digits (c : Char) (a2 : Str)
    (h1 : ∀ x ∈ c :: a2, x.isDigit = true) :
    parseFloatQ (c :: a2) = some (digitsVal (c :: a2) : ℚ) := by
  have hc : c.isDigit = true := h1 c (List.mem_cons_self c a2)
  have hjw : ¬(jsWs c = true) := by simp [jsWs_of_digit hc]
  have hS : ¬((some c : Option Char) = some '-') := fun e => by
    have hce : c = '-' := Option.some.inj e
    subst hce
    exact absurd hc (by decide)
  have hS2 : ¬((some c : Option Char) = some '-' ∨ (some c : Option Char) = some '+') := by
    rintro (e | e)
    · exact hS e
    · have hce : c = '+' := Option.some.inj e
      subst hce
      exact absurd hc (by decide)
  have hnodot : ¬((([] : Str).head? = some '.')) := by simp
  have houter : ¬((c :: a2 : Str) = [] ∧ ([] : Str) = ([] : Str)) := by simp
  have hexp : ¬((([] : Str).head? = some 'e') ∨ (([] : Str).head? = some 'E')) := by simp
  unfold parseFloatQ
  dsimp only
  rw [List.dropWhile_cons, if_neg hjw,
    List.head?_cons, if_neg hS, if_neg hS2,
    takeWhile_of_all Char.isDigit (c :: a2) h1,
    dropWhile_of_all Char.isDigit (c :: a2) h1,
    if_neg hnodot, if_neg hnodot, if_neg houter, if_neg hexp]
  norm_num [digitsVal]

theorem digitsVal_append_zero (b : Str) : digitsVal (b ++ ['0']) = 10 * digitsVal b := by
  unfold digitsVal
  rw [List.foldl_append]
  simp [List.foldl_cons]
  ring

theorem parsePrice_two_digit_tail (c : Char) (a2 b : Str) (s : Char)
    (ha : ∀ x ∈ c :: a2, x.isDigit = true) (hb : ∀ x ∈ b, x.isDigit = true)
    (hs : sepC s = true) (hb2 : b.length = 2) :
    parsePrice ((c :: a2) ++ s :: b) =
      (digitsVal (c :: a2) : ℚ) + (digitsVal b : ℚ) / 100 := by
  have hne : ((c :: a2) ++ s :: b : Str) ≠ [] := by simp
  have hkeep : ((c :: a2) ++ s :: b : Str).filter (fun x => !(curC x || jsWs x)) =
      (c :: a2) ++ s :: b := by
    apply filter_keep_of_digit_or_sep
    intro x hx
    rcases List.mem_append.mp hx with h1 | h1
    · exact Or.inl (ha x h1)
    · rcases List.mem_cons.mp h1 with h2 | h2
      · exact Or.inr (h2 ▸ hs)
      · exact Or.inl (hb x h2)
  have hsplit : splitSep sepC ((c :: a2) ++ s :: b) = [c :: a2, b] := by
    rw [splitSep_front sepC s hs (c :: a2) b
      (fun x hx => sepC_of_digit (ha x hx)),
      splitSep_all_keep sepC b (fun x hx => sepC_of_digit (hb x hx))]
  unfold parsePrice
  rw [if_neg hne]
  dsimp only
  rw [hkeep, hsplit]
  have hlen : ¬(2 < ([c :: a2, b] : List Str).length) := by simp
  rw [if_neg hlen]
  dsimp only
  rw [if_pos hb2, parseFloatQ_digits_dot c a2 b ha hb]
  rw [hb2]
  norm_num

theorem parsePrice_one_digit_tail (c : Char) (a2 b : Str) (s : Char)
    (ha : ∀ x ∈ c :: a2, x.isDigit = true) (hb : ∀ x ∈ b, x.isDigit = true)
    (hs : sepC s = true) (hb1 : b.length = 1) :
    parsePrice ((c :: a2) ++ s :: b) =
      (digitsVal (c :: a2) : ℚ) + (digitsVal b : ℚ) / 10 := by
  have hne : ((c :: a2) ++ s :: b : Str) ≠ [] := by simp
  have hkeep : ((c :: a2) ++ s :: b : Str).filter (fun x => !(curC x || jsWs x)) =
      (c :: a2) ++ s :: b := by
    apply filter_keep_of_digit_or_sep
    intro x hx
    rcases List.mem_append.mp hx with h1 | h1
    · exact Or.inl (ha x h1)
    · rcases List.mem_cons.mp h1 with h2 | h2
      · exact Or.inr (h2 ▸ hs)
      · exact Or.inl (hb x h2)
  have hsplit : splitSep sepC ((c :: a2) ++ s :: b) = [c :: a2, b] := by
    rw [splitSep_front sepC s hs (c :: a2) b
      (fun x hx => sepC_of_digit (ha x hx)),
      splitSep_all_keep sepC b (fun x hx => sepC_of_digit (hb x hx))]
  have hb0 : ∀ x ∈ b ++ ['0'], x.isDigit = true := by
    intro x hx
    rcases List.mem_append.mp hx with h1 | h1
    · exact hb x h1
    · simp at h1
      subst h1
      decide
  unfold parsePrice
  rw [if_neg hne]
  dsimp only
  rw [hkeep, hsplit]
  have hlen : ¬(2 < ([c :: a2, b] : List Str).length) := by simp
  rw [if_neg hlen]
  dsimp only
  rw [if_neg (by simp [hb1]), if_pos hb1]
  have hshape : (((c :: a2) ++ '.' :: b) ++ ['0'] : Str) = (c :: a2) ++ '.' :: (b ++ ['0']) := by
    simp
  rw [hshape, parseFloatQ_digits_dot c a2 (b ++ ['0']) ha hb0]
  rw [digitsVal_append_zero, List.length_append, hb1]
  push_cast
  norm_num
  ring

theorem parsePrice_long_tail (c : Char) (a2 b : Str) (s : Char)
    (ha : ∀ x ∈ c :: a2, x.isDigit = true) (hb : ∀ x ∈ b, x.isDigit = true)
    (hs : sepC s = true) (hbl : 2 < b.length) :
    parsePrice ((c :: a2) ++ s :: b) = (digitsVal ((c :: a2) ++ b) : ℚ) := by
  have hne : ((c :: a2) ++ s :: b : Str) ≠ [] := by simp
  have hkeep : ((c :: a2) ++ s :: b : Str).filter (fun x => !(curC x || jsWs x)) =
      (c :: a2) ++ s :: b := by
    apply filter_keep_of_digit_or_sep
    intro x hx
    rcases List.mem_append.mp hx with h1 | h1
    · exact Or.inl (ha x h1)
    · rcases List.mem_cons.mp h1 with h2 | h2
      · exact Or.inr (h2 ▸ hs)
      · exact Or.inl (hb x h2)
  have hsplit : splitSep sepC ((c :: a2) ++ s :: b) = [c :: a2, b] := by
    rw [splitSep_front sepC s hs (c :: a2) b
      (fun x hx => sepC_of_digit (ha x hx)),
      splitSep_all_keep sepC b (fun x hx => sepC_of_digit (hb x hx))]
  have hab : ∀ x ∈ c :: (a2 ++ b), x.isDigit = true := by
    intro x hx
    rcases List.mem_cons.mp hx with h1 | h1
    · exact ha x (h1 ▸ List.mem_cons_self c a2)
    · rcases List.mem_append.mp h1 with h2 | h2
      · exact ha x (List.mem_cons_of_mem _ h2)
      · exact hb x h2
  unfold parsePrice
  rw [if_neg hne]
  dsimp only
  rw [hkeep, hsplit]
  have hlen : ¬(2 < ([c :: a2, b] : List Str).length) := by simp
  rw [if_neg hlen]
  dsimp only
  rw [if_neg (by omega : ¬(b.length = 2)), if_neg (by omega : ¬(b.length = 1)),
    if_pos hbl]
  rw [List.cons_append, parseFloatQ_digits c (a2 ++ b) hab]

theorem joinSeps_nil (g0 : Str) : joinSeps g0 [] = g0 := rfl

theorem joinSeps_cons (g0 : Str) (s : Char) (g : Str) (rest : List (Char × Str)) :
    joinSeps g0 ((s, g) :: rest) = g0 ++ s :: joinSeps g rest := rfl

theorem joinSeps_chars (Q : Char → Prop) :
    ∀ (ps : List (Char × Str)) (g0 : Str), (∀ c ∈ g0, Q c) →
      (∀ p ∈ ps, Q p.1 ∧ ∀ c ∈ p.2, Q c) →
      ∀ c ∈ joinSeps g0 ps, Q c := by
  intro ps
  induction ps with
  | nil =>
    intro g0 h _ c hc
    exact h c hc
  | cons p rest ih =>
    intro g0 h hp c hc
    obtain ⟨s, g⟩ := p
    rw [joinSeps_cons] at hc
    rcases List.mem_append.mp hc with h1 | h1
    · exact h c h1
    · rcases List.mem_cons.mp h1 with h2 | h2
      · exact h2 ▸ (hp (s, g) (List.mem_cons_self _ _)).1
      · exact ih g ((hp (s, g) (List.mem_cons_self _ _)).2)
          (fun q hq => hp q (List.mem_cons_of_mem _ hq)) c h2

theorem splitSep_joinSeps (sL : Char) (hsL : sepC sL = true) (gL : Str) :
    ∀ (ps : List (Char × Str)) (g0 : Str), (∀ c ∈ g0, sepC c = false) →
      (∀ p ∈ ps, sepC p.1 = true ∧ ∀ c ∈ p.2, sepC c = false) →
      (∀ c ∈ gL, sepC c = false) →
      splitSep sepC (joinSeps g0 ps ++ sL :: gL) =
        (g0 :: ps.map Prod.snd) ++ [gL] := by
  intro ps
  induction ps with
  | nil =>
    intro g0 h _ hgL
    rw [joinSeps_nil, splitSep_front sepC sL hsL g0 gL h,
      splitSep_all_keep sepC gL hgL]
    rfl
  | cons p rest ih =>
    intro g0 h hp hgL
    obtain ⟨s, g⟩ := p
    have hshape : (joinSeps g0 ((s, g) :: rest) ++ sL :: gL : Str) =
        g0 ++ s :: (joinSeps g rest ++ sL :: gL) := by
      rw [joinSeps_cons]
      simp
    rw [hshape,
      splitSep_front sepC s (hp (s, g) (List.mem_cons_self _ _)).1 g0
        (joinSeps g rest ++ sL :: gL) h,
      ih g ((hp (s, g) (List.mem_cons_self _ _)).2)
        (fun q hq => hp q (List.mem_cons_of_mem _ hq)) hgL]
    rfl

theorem parsePrice_multi_sep (c : Char) (a2 : Str) (ps : List (Char × Str))
    (sL : Char) (gL : Str)
    (ha : ∀ x ∈ c :: a2, x.isDigit = true)
    (hps : ∀ p ∈ ps, sepC p.1 = true ∧ ∀ x ∈ p.2, x.isDigit = true)
    (hsL : sepC sL = true) (hgL : ∀ x ∈ gL, x.isDigit = true)
    (hlen : 1 ≤ ps.length) :
    parsePrice (joinSeps (c :: a2) ps ++ sL :: gL) =
      (digitsVal ((c :: a2) ++ (ps.map Prod.snd).flatten) : ℚ) +
        (digitsVal gL : ℚ) / 10 ^ gL.length := by
  have hne : (joinSeps (c :: a2) ps ++ sL :: gL : Str) ≠ [] := by simp
  have hkeep : (joinSeps (c :: a2) ps ++ sL :: gL : Str).filter
      (fun x => !(curC x || jsWs x)) = joinSeps (c :: a2) ps ++ sL :: gL := by
    apply filter_keep_of_digit_or_sep
    intro x hx
    rcases List.mem_append.mp hx with h1 | h1
    · exact joinSeps_chars (fun y => y.isDigit = true ∨ sepC y = true) ps (c :: a2)
        (fun y hy => Or.inl (ha y hy))
        (fun p hp => ⟨Or.inr (hps p hp).1, fun y hy => Or.inl ((hps p hp).2 y hy)⟩)
        x h1
    · rcases List.mem_cons.mp h1 with h2 | h2
      · exact Or.inr (h2 ▸ hsL)
      · exact Or.inl (hgL x h2)
  have hsplit : splitSep sepC (joinSeps (c :: a2) ps ++ sL :: gL) =
      ((c :: a2) :: ps.map Prod.snd) ++ [gL] :=
    splitSep_joinSeps sL hsL gL ps (c :: a2)
      (fun x hx => sepC_of_digit (ha x hx))
      (fun p hp => ⟨(hps p hp).1, fun x hx => sepC_of_digit ((hps p hp).2 x hx)⟩)
      (fun x hx => sepC_of_digit (hgL x hx))
  have hdig : ∀ x ∈ c :: (a2 ++ (ps.map Prod.snd).flatten), x.isDigit = true := by
    intro x hx
    rcases List.mem_cons.mp hx with h1 | h1
    · exact ha x (h1 ▸ List.mem_cons_self c a2)
    · rcases List.mem_append.mp h1 with h2 | h2
      · exact ha x (List.mem_cons_of_mem _ h2)
      · rcases List.mem_flatten.mp h2 with ⟨piece, hpm, hxm⟩
        rcases List.mem_map.mp hpm with ⟨p, hp, rfl⟩
        exact (hps p hp).2 x hxm
  unfold parsePrice
  rw [if_neg hne]
  dsimp only
  rw [hkeep, hsplit]
  have hplen : 2 < ((((c :: a2) :: ps.map Prod.snd) ++ [gL]) : List Str).length := by
    rw [List.length_append, List.length_cons, List.length_map]
    simp
    omega
  rw [if_pos hplen]
  have hrev : ((((c :: a2) :: ps.map Prod.snd) ++ [gL]) : List Str).reverse =
      gL :: ((ps.map Prod.snd).reverse ++ [c :: a2]) := by
    simp
  rw [hrev]
  dsimp only
  have hflat : ((((ps.map Prod.snd).reverse ++ [c :: a2]) : List Str).reverse.flatten
        ++ '.' :: gL : Str) =
      (c :: (a2 ++ (ps.map Prod.snd).flatten)) ++ '.' :: gL := by
    simp
  rw [hflat, parseFloatQ_digits_dot c (a2 ++ (ps.map Prod.snd).flatten) gL hdig hgL]
  simp

/-- C2: `parsePrice` resolves separator ambiguity as specified.  With
more than two separator-delimited parts — any number of digit groups
`joinSeps a ps ++ sL :: b` with at least two separators — the last
separator is the decimal point and all earlier parts are concatenated
as thousands groupings; with exactly two parts a 2-digit tail is cents,
a 1-digit tail is a truncated decimal padded with one zero, and a tail
longer than 2 digits is a thousands grouping (concatenated, no
decimal).  Consequently "24.00" and "24,00" both yield 24.00,
"1.234,56" and "1,234.56" both yield 1234.56, and the four-part
"1.234.567,89" yields 1234567.89. -/
theorem parsePrice_separator_rules :
    (∀ (a b : Str) (s : Char), a ≠ [] → (∀ x ∈ a, x.isDigit = true) →
        (∀ x ∈ b, x.isDigit = true) → sepC s = true →
        (b.length = 2 →
          parsePrice (a ++ s :: b) = (digitsVal a : ℚ) + (digitsVal b : ℚ) / 100) ∧
        (b.length = 1 →
          parsePrice (a ++ s :: b) = (digitsVal a : ℚ) + (digitsVal b : ℚ) / 10) ∧
        (2 < b.length → parsePrice (a ++ s :: b) = (digitsVal (a ++ b) : ℚ))) ∧
    (∀ (a : Str) (ps : List (Char × Str)) (sL : Char) (b : Str), a ≠ [] →
        (∀ x ∈ a, x.isDigit = true) →
        (∀ p ∈ ps, sepC p.1 = true ∧ ∀ x ∈ p.2, x.isDigit = true) →
        sepC sL = true → (∀ x ∈ b, x.isDigit = true) → 1 ≤ ps.length →
        parsePrice (joinSeps a ps ++ sL :: b) =
          (digitsVal (a ++ (ps.map Prod.snd).flatten) : ℚ) +
            (digitsVal b : ℚ) / 10 ^ b.length) ∧
    (parsePrice "24.00".data = 24 ∧ parsePrice "24,00".data = 24 ∧
     parsePrice "1.234,56".data = 123456 / 100 ∧
     parsePrice "1,234.56".data = 123456 / 100 ∧
     parsePrice "1.234.567,89".data = 123456789 / 100) := by
  refine ⟨?_, ?_, by decide, by decide, by decide, by decide, by decide⟩
  · intro a b s hne ha hb hs
    cases a with
    | nil => exact absurd rfl hne
    | cons c a2 =>
      exact ⟨parsePrice_two_digit_tail c a2 b s ha hb hs,
        parsePrice_one_digit_tail c a2 b s ha hb hs,
        parsePrice_long_tail c a2 b s ha hb hs⟩
  · intro a ps sL b hne ha hps hsL hb hlen
    cases a with
    | nil => exact absurd rfl hne
    | cons c a2 => exact parsePrice_multi_sep c a2 ps sL b ha hps hsL hb hlen

/-- Witness for C2 at the concrete inputs `"24.00"` (two parts) and
`"1.234.567,89"` (four separator-delimited groups, via its `joinSeps`
presentation). -/
theorem parsePrice_separator_rules_witness :
    parsePrice ("24".data ++ '.' :: "00".data) =
      (digitsVal "24".data : ℚ) + (digitsVal "00".data : ℚ) / 100 ∧
    parsePrice (joinSeps "1".data [('.', "234".data), ('.', "567".data)]
        ++ ',' :: "89".data) =
      (digitsVal ("1".data ++
          (([('.', "234".data), ('.', "567".data)]).map Prod.snd).flatten) : ℚ) +
        (digitsVal "89".data : ℚ) / 10 ^ ("89".data.length) :=
  ⟨(parsePrice_separator_rules.1 "24".data "00".data '.' (by decide) (by decide)
      (by decide) (by decide)).1 (by decide),
   parsePrice_separator_rules.2.1 "1".data [('.', "234".data), ('.', "567".data)]
      ',' "89".data (by decide) (by decide) (by decide) (by decide) (by decide)
      (by decide)⟩

/-
Claim C6: item-name validation.
-/

/-- C6 counterexample: `"Main St 123"` is NOT rejected by
`isValidItemName` — the trailing-number address pattern
`^(main|street|...)\s+\d+$` only matches names that BEGIN with a
street-type token, and `"Main St 123"` begins with `"Main"` followed by
a non-digit. -/
theorem isValidItemName_mainSt123_ce :
    isValidItemName "Main St 123".data = true := by decide

/-- C6 amended: item-name validation rejects every string whose trimmed
lower-cased form is in the financial-keyword denylist (total, subtotal,
tax, tip, change, cash, credit, debit, card, payment, balance, amount,
due, check, bill, date), rejects the address form "123 Main St", and
accepts "Chicken Wings" (the residue of "2 Chicken Wings" after
quantity extraction and stripping); however "Main St 123" is accepted,
because the trailing-number address heuristic only matches names whose
first token is a street-type word. -/
theorem isValidItemName_rules :
    (∀ s : Str, (jsTrim s).map lowerChar ∈ invalidWords →
      isValidItemName s = false) ∧
    isValidItemName "123 Main St".data = false ∧
    isValidItemName "Main St 123".data = true ∧
    extractQuantity "2 Chicken Wings".data = 2 ∧
    removeQuantityFromName "2 Chicken Wings".data 2 = "Chicken Wings".data ∧
    isValidItemName "Chicken Wings".data = true := by
  refine ⟨?_, by decide, by decide, by decide, by decide, by decide⟩
  intro s h
  unfold isValidItemName
  by_cases h1 : s.length < 2
  · simp [h1]
  · by_cases h2 : s.all (fun c => c.isDigit || !isWordChar c)
    · simp [h1, h2]
    · have h3 : invalidWords.any (fun w => (jsTrim s).map lowerChar == w) = true := by
        rw [List.any_eq_true]
        exact ⟨_, h, by simp⟩
      simp [h1, h2, h3]

/-- Witness for the amended C6: the denylist member `"Total"` is
rejected. -/
theorem isValidItemName_rules_witness :
    isValidItemName "Total".data = false :=
  isValidItemName_rules.1 "Total".data (by decide)

/-
Claim C7: the confidence scorer.
-/

/-- C7 counterexample: when the declared total is 0 the source skips the
consistency check entirely (the `summary.total > 0` guard) and uses the
term 1.0, while the claim's banding formula yields 0.5 there: on one
perfectly-confident item with total 0 the source returns 1 and the
claim's formula returns 0.8. -/
theorem calculateConfidence_total_zero_ce :
    calculateConfidence [Item.mk "A".data 1 1 1] ⟨0, 0, 0, 0⟩ = 1 ∧
    calculateConfidenceSpec [Item.mk "A".data 1 1 1] ⟨0, 0, 0, 0⟩ = 4/5 ∧
    calculateConfidence [Item.mk "A".data 1 1 1] ⟨0, 0, 0, 0⟩ ≠
      calculateConfidenceSpec [Item.mk "A".data 1 1 1] ⟨0, 0, 0, 0⟩ := by
  refine ⟨by decide, by decide, by decide⟩

theorem foldl_add_shift (f : Item → ℚ) :
    ∀ (l : List Item) (c : ℚ),
      l.foldl (fun acc it => acc + f it) c = c + l.foldl (fun acc it => acc + f it) 0 := by
  intro l
  induction l with
  | nil => intro c; simp
  | cons b l ih =>
    intro c
    rw [List.foldl_cons, List.foldl_cons, ih (c + f b), ih (0 + f b)]
    ring

theorem foldl_conf_bounds :
    ∀ (items : List Item), (∀ it ∈ items, 0 ≤ it.confidence ∧ it.confidence ≤ 1) →
      0 ≤ items.foldl (fun acc it => acc + itemConfTerm it) 0 ∧
      items.foldl (fun acc it => acc + itemConfTerm it) 0 ≤ (items.length : ℚ) := by
  intro items
  induction items with
  | nil => intro _; simp
  | cons b l ih =>
    intro h
    have hb := h b (List.mem_cons_self b l)
    have hterm : 0 ≤ itemConfTerm b ∧ itemConfTerm b ≤ 1 := by
      unfold itemConfTerm
      split
      · norm_num
      · exact hb
    have hl := ih (fun it hit => h it (List.mem_cons_of_mem _ hit))
    rw [List.foldl_cons, foldl_add_shift]
    constructor
    · have := hl.1
      have := hterm.1
      linarith
    · have := hl.2
      have := hterm.2
      rw [List.length_cons]
      push_cast
      linarith

theorem jsRound2_bounds {q : ℚ} (h0 : 0 ≤ q) (h1 : q ≤ 1) :
    0 ≤ jsRound2 q ∧ jsRound2 q ≤ 1 := by
  unfold jsRound2
  constructor
  · apply div_nonneg _ (by norm_num)
    have : (0 : ℤ) ≤ ⌊q * 100 + 1/2⌋ := by
      apply Int.floor_nonneg.mpr
      linarith
    exact_mod_cast this
  · rw [div_le_one (by norm_num)]
    have h2 : ⌊q * 100 + 1/2⌋ ≤ ⌊(201 : ℚ)/2⌋ := by
      apply Int.floor_le_floor
      linarith
    have h3 : ⌊(201 : ℚ)/2⌋ = 100 := by norm_num
    have h4 : ⌊q * 100 + 1/2⌋ ≤ 100 := by omega
    exact_mod_cast h4

/-- C7 amended: `calculateConfidence` returns exactly 0 for an empty
item list.  For a non-empty list it blends the mean per-item confidence
(a zero confidence counting as 0.5) with weight 0.6 and a
totals-consistency term with weight 0.4, rounded to 2 decimal places —
where the consistency term is banded (1.0 within 5% of the declared
total, 0.8 within twice that tolerance, 0.5 beyond) only when the
declared total is positive, and is 1.0 whenever total ≤ 0.  The result
lies in [0,1] whenever each per-item confidence lies in [0,1],
regardless of total/tax/tip sign or magnitude. -/
theorem calculateConfidence_props :
    (∀ summary : Summary, calculateConfidence [] summary = 0) ∧
    (∀ (items : List Item) (summary : Summary), items ≠ [] →
      (∀ it ∈ items, 0 ≤ it.confidence ∧ it.confidence ≤ 1) →
      (0 ≤ calculateConfidence items summary ∧
        calculateConfidence items summary ≤ 1) ∧
      calculateConfidence items summary =
        jsRound2
          (((items.foldl (fun acc it => acc + itemConfTerm it) 0) / (items.length : ℚ)) * (3/5) +
            (if 0 < summary.total then
              (if |items.foldl (fun acc it => acc + it.price * it.quantity) 0 +
                    summary.tax + summary.tip - summary.total| ≤
                  summary.total * (1/20) then (1 : ℚ)
               else if |items.foldl (fun acc it => acc + it.price * it.quantity) 0 +
                    summary.tax + summary.tip - summary.total| ≤
                  summary.total * (1/20) * 2 then 4/5
               else 1/2)
             else 1) * (2/5))) := by
  constructor
  · intro summary
    rfl
  · intro items summary hne hconf
    have hn : 0 < (items.length : ℚ) := by
      have : 0 < items.length := List.length_pos.mpr hne
      exact_mod_cast this
    have hS := foldl_conf_bounds items hconf
    have hmean0 : 0 ≤ (items.foldl (fun acc it => acc + itemConfTerm it) 0) / (items.length : ℚ) :=
      div_nonneg hS.1 (le_of_lt hn)
    have hmean1 : (items.foldl (fun acc it => acc + itemConfTerm it) 0) / (items.length : ℚ) ≤ 1 :=
      (div_le_one hn).mpr hS.2
    have hband : ∀ b : ℚ, b = 1 ∨ b = 4/5 ∨ b = 1/2 → 0 ≤ b ∧ b ≤ 1 := by
      rintro b (rfl | rfl | rfl) <;> norm_num
    have heq : calculateConfidence items summary =
        jsRound2
          (((items.foldl (fun acc it => acc + itemConfTerm it) 0) / (items.length : ℚ)) * (3/5) +
            (if 0 < summary.total then
              (if |items.foldl (fun acc it => acc + it.price * it.quantity) 0 +
                    summary.tax + summary.tip - summary.total| ≤
                  summary.total * (1/20) then (1 : ℚ)
               else if |items.foldl (fun acc it => acc + it.price * it.quantity) 0 +
                    summary.tax + summary.tip - summary.total| ≤
                  summary.total * (1/20) * 2 then 4/5
               else 1/2)
             else 1) * (2/5)) := by
      unfold calculateConfidence
      rw [if_neg (by simpa using hne)]
    refine ⟨?_, heq⟩
    rw [heq]
    set B := (if 0 < summary.total then
              (if |items.foldl (fun acc it => acc + it.price * it.quantity) 0 +
                    summary.tax + summary.tip - summary.total| ≤
                  summary.total * (1/20) then (1 : ℚ)
               else if |items.foldl (fun acc it => acc + it.price * it.quantity) 0 +
                    summary.tax + summary.tip - summary.total| ≤
                  summary.total * (1/20) * 2 then 4/5
               else 1/2)
             else 1) with hB
    have hBb : 0 ≤ B ∧ B ≤ 1 := by
      apply hband
      rw [hB]
      split
      · split
        · exact Or.inl rfl
        · split
          · exact Or.inr (Or.inl rfl)
          · exact Or.inr (Or.inr rfl)
      · exact Or.inl rfl
    apply jsRound2_bounds
    · have := hmean0
      have := hBb.1
      nlinarith
    · nlinarith [hmean1, hBb.2, hmean0, hBb.1]

/-- Witness for the amended C7 at one item with confidence 0.85 and an
all-zero summary. -/
theorem calculateConfidence_props_witness :
    0 ≤ calculateConfidence [Item.mk "A".data 1 1 (17/20)] ⟨0, 0, 0, 0⟩ ∧
    calculateConfidence [Item.mk "A".data 1 1 (17/20)] ⟨0, 0, 0, 0⟩ ≤ 1 :=
  (calculateConfidence_props.2 [Item.mk "A".data 1 1 (17/20)] ⟨0, 0, 0, 0⟩
    (by decide) (by decide)).1

/-
Claim C8: which line sequence feeds metadata extraction.
-/

/-- C8 counterexample: on an input whose first five raw lines are all
skip-list boilerplate (`"Receipt"`), `parseReceiptText` finds the
merchant `"Wingstop"` from the sixth raw line, because metadata
extraction runs on the FILTERED sequence; on the unfiltered sequence of
the claim the merchant scan would return `"Receipt"` (a merchant-shaped
first line).  The two disagree. -/
theorem extractMetadata_filtered_ce :
    (parseReceiptText "Receipt\nReceipt\nReceipt\nReceipt\nReceipt\nWingstop".data).merchant =
      "Wingstop".data ∧
    (extractMetadata (rawLines "Receipt\nReceipt\nReceipt\nReceipt\nReceipt\nWingstop".data)).merchant =
      "Receipt".data ∧
    (parseReceiptText "Receipt\nReceipt\nReceipt\nReceipt\nReceipt\nWingstop".data).merchant ≠
      (extractMetadata (rawLines "Receipt\nReceipt\nReceipt\nReceipt\nReceipt\nWingstop".data)).merchant := by
  refine ⟨by decide, by decide, by decide⟩

theorem findMerchant_cases :
    ∀ ls : List Str, findMerchant ls = [] ∨
      ∃ l ∈ ls, findMerchant ls = jsTrim l ∧ merchantOk l = true := by
  intro ls
  induction ls with
  | nil => exact Or.inl rfl
  | cons l rest ih =>
    unfold findMerchant
    by_cases h : merchantOk l
    · rw [if_pos h]
      exact Or.inr ⟨l, List.mem_cons_self l rest, rfl, h⟩
    · rw [if_neg h]
      rcases ih with h1 | ⟨x, hx, hfx, hok⟩
      · exact Or.inl h1
      · exact Or.inr ⟨x, List.mem_cons_of_mem _ hx, hfx, hok⟩

/-- C8 amended: metadata extraction (merchant and date) operates on the
same filtered sequence that feeds item and summary classification — the
trimmed non-empty lines with the boilerplate skip-list already applied —
with the merchant sought in the first 5 of those FILTERED lines (the
unfiltered sequence is never consulted). -/
theorem parseReceiptText_metadata_filtered :
    ∀ text : Str,
      (parseReceiptText text).merchant = (extractMetadata (preprocessText text)).merchant ∧
      (parseReceiptText text).date = (extractMetadata (preprocessText text)).date ∧
      ((parseReceiptText text).merchant = [] ∨
        ∃ l ∈ (preprocessText text).take 5,
          (parseReceiptText text).merchant = jsTrim l ∧ merchantOk l = true) := by
  intro text
  by_cases h : text = []
  · subst h
    refine ⟨by decide, by decide, Or.inl (by decide)⟩
  · have h1 : (parseReceiptText text).merchant = (extractMetadata (preprocessText text)).merchant := by
      unfold parseReceiptText
      rw [if_neg h]
    have h2 : (parseReceiptText text).date = (extractMetadata (preprocessText text)).date := by
      unfold parseReceiptText
      rw [if_neg h]
    refine ⟨h1, h2, ?_⟩
    rw [h1]
    exact findMerchant_cases ((preprocessText text).take 5)

/-
Claim C9: algebraic properties of `calculateSimilarity`.
-/

theorem dpFun_symm :
    ∀ (fuel : Nat) (a b : Str) (i j : Nat), i + j < fuel →
      dpFun a b fuel i j = dpFun b a fuel j i := by
  intro fuel
  induction fuel with
  | zero => intro a b i j h; omega
  | succ f ih =>
    intro a b i j h
    cases i with
    | zero =>
      cases j with
      | zero => rfl
      | succ j2 => rfl
    | succ i2 =>
      cases j with
      | zero => rfl
      | succ j2 =>
        have h1 : i2 + (j2 + 1) < f := by omega
        have h2 : (i2 + 1) + j2 < f := by omega
        have h3 : i2 + j2 < f := by omega
        unfold dpFun
        by_cases he : a.get? i2 = b.get? j2
        · rw [if_pos he, if_pos he.symm]
          exact ih a b i2 j2 h3
        · rw [if_neg he, if_neg (fun e => he e.symm)]
          have hcomm : ∀ x y : Nat, Nat.min x y = Nat.min y x := fun x y => Nat.min_comm x y
          rw [ih a b i2 (j2 + 1) h1, ih a b (i2 + 1) j2 h2, ih a b i2 j2 h3,
            hcomm (dpFun b a f (j2 + 1) i2 + 1) (dpFun b a f j2 (i2 + 1) + 1)]

theorem dpFun_le_max :
    ∀ (fuel : Nat) (a b : Str) (i j : Nat), i + j < fuel →
      dpFun a b fuel i j ≤ max i j := by
  intro fuel
  induction fuel with
  | zero => intro a b i j h; omega
  | succ f ih =>
    intro a b i j h
    cases i with
    | zero =>
      cases j with
      | zero => exact Nat.le_refl 0
      | succ j2 => simp [dpFun]
    | succ i2 =>
      cases j with
      | zero => simp [dpFun]
      | succ j2 =>
        have h1 : i2 + (j2 + 1) < f := by omega
        have h2 : (i2 + 1) + j2 < f := by omega
        have h3 : i2 + j2 < f := by omega
        have b1 := ih a b i2 (j2 + 1) h1
        have b2 := ih a b (i2 + 1) j2 h2
        have b3 := ih a b i2 j2 h3
        unfold dpFun
        by_cases he : a.get? i2 = b.get? j2
        · rw [if_pos he]
          omega
        · rw [if_neg he]
          exact le_trans (Nat.min_le_right _ _) (by omega)

theorem levenshteinDistance_symm (s1 s2 : Str) :
    levenshteinDistance s1 s2 = levenshteinDistance s2 s1 := by
  unfold levenshteinDistance
  rw [dpFun_symm (s1.length + s2.length + 1) s1 s2 s1.length s2.length (by omega)]
  rw [Nat.add_comm s1.length s2.length]

theorem levenshteinDistance_le_max (s1 s2 : Str) :
    levenshteinDistance s1 s2 ≤ max s1.length s2.length :=
  dpFun_le_max _ s1 s2 s1.length s2.length (by omega)

/-- C9: `calculateSimilarity` is symmetric, reflexive with value 1, and
bounded in [0,1] for every pair of strings. -/
theorem calculateSimilarity_props :
    ∀ a b : Str,
      calculateSimilarity a b = calculateSimilarity b a ∧
      calculateSimilarity a a = 1 ∧
      0 ≤ calculateSimilarity a b ∧ calculateSimilarity a b ≤ 1 := by
  have hsym : ∀ a b : Str, calculateSimilarity a b = calculateSimilarity b a := by
    intro a b
    unfold calculateSimilarity
    by_cases h : jsTrim (a.map lowerChar) = jsTrim (b.map lowerChar)
    · rw [if_pos h, if_pos h.symm]
    · rw [if_neg h,
        if_neg (show ¬(jsTrim (List.map lowerChar b) = jsTrim (List.map lowerChar a)) from
          fun e => h e.symm)]
      dsimp only
      rw [Nat.max_comm (jsTrim (a.map lowerChar)).length (jsTrim (b.map lowerChar)).length,
        levenshteinDistance_symm (jsTrim (a.map lowerChar)) (jsTrim (b.map lowerChar))]
  have hrefl : ∀ a : Str, calculateSimilarity a a = 1 := by
    intro a
    unfold calculateSimilarity
    rw [if_pos rfl]
  have hbounds : ∀ a b : Str, 0 ≤ calculateSimilarity a b ∧ calculateSimilarity a b ≤ 1 := by
    intro a b
    unfold calculateSimilarity
    by_cases h : jsTrim (a.map lowerChar) = jsTrim (b.map lowerChar)
    · rw [if_pos h]
      norm_num
    · rw [if_neg h]
      dsimp only
      by_cases hm : max (jsTrim (a.map lowerChar)).length (jsTrim (b.map lowerChar)).length = 0
      · rw [if_pos hm]
        norm_num
      · rw [if_neg hm]
        have hmp : (0 : ℚ) < ((max (jsTrim (List.map lowerChar a)).length
            (jsTrim (List.map lowerChar b)).length : Nat) : ℚ) :=
          Nat.cast_pos.mpr (Nat.pos_of_ne_zero hm)
        have hd : ((levenshteinDistance (jsTrim (List.map lowerChar a))
              (jsTrim (List.map lowerChar b)) : Nat) : ℚ) ≤
            ((max (jsTrim (List.map lowerChar a)).length
              (jsTrim (List.map lowerChar b)).length : Nat) : ℚ) :=
          Nat.cast_le.mpr (levenshteinDistance_le_max _ _)
        have hd0 : (0 : ℚ) ≤ ((levenshteinDistance (jsTrim (List.map lowerChar a))
            (jsTrim (List.map lowerChar b)) : Nat) : ℚ) := Nat.cast_nonneg _
        have hq1 : ((levenshteinDistance (jsTrim (List.map lowerChar a))
              (jsTrim (List.map lowerChar b)) : Nat) : ℚ) /
            ((max (jsTrim (List.map lowerChar a)).length
              (jsTrim (List.map lowerChar b)).length : Nat) : ℚ) ≤ 1 :=
          (div_le_one hmp).mpr hd
        have hq0 : (0 : ℚ) ≤ ((levenshteinDistance (jsTrim (List.map lowerChar a))
              (jsTrim (List.map lowerChar b)) : Nat) : ℚ) /
            ((max (jsTrim (List.map lowerChar a)).length
              (jsTrim (List.map lowerChar b)).length : Nat) : ℚ) :=
          div_nonneg hd0 (le_of_lt hmp)
        constructor
        · linarith
        · linarith
  intro a b
  exact ⟨hsym a b, hrefl a, hbounds a b⟩
